import Mathlib

/-! A shallow embedding of `main.go` of go-include.

`go-include` resolves its command-line glob patterns to a list of files, reads
each file, derives a constant name from the file name, encodes the content
(back-tick escaping for `text`, base64 for `bin`), renders everything through a
fixed `text/template` and writes the result to standard output or to a `.go`
file.

The embedding follows `main.go` statement by statement.  The parts of the Go
standard library that `main` calls (`strings`, `path/filepath`, `unicode/utf8`,
`encoding/base64`, the `%s` verb of `fmt`) are embedded as executable functions
on byte strings.  What `main` obtains from its environment (the file system,
the process environment, the clock, the tables of package `unicode`) is a
parameter, `World`.
-/

namespace GoInclude

/-! ## Strings -/

/-- A Go `string` or `[]byte`: a finite sequence of bytes, each byte a natural
number (below 256 for a string that exists at run time). -/
abbrev GoString := List Nat

/-- The bytes of a string literal of the source (all literals of `main.go` that
are embedded are ASCII, so a character is its byte). -/
def str (s : String) : GoString := s.toList.map Char.toNat

/-- Go `strings.HasPrefix(s, prefix)`. -/
def HasPrefix (s pre : GoString) : Bool := pre.isPrefixOf s

/-- Go `strings.HasSuffix(s, suffix)`. -/
def HasSuffix (s suffix : GoString) : Bool := suffix.isSuffixOf s

/-- Go `strings.TrimSuffix(s, suffix)`: `s` without the trailing `suffix`, or
`s` itself when it does not end in `suffix`. -/
def TrimSuffix (s suffix : GoString) : GoString :=
  if HasSuffix s suffix then s.take (s.length - suffix.length) else s

/-- Go `strings.Index(s, substr)`: the index of the first occurrence of
`substr` in `s`; `none` stands for the result `-1`. -/
def Index : GoString → GoString → Option Nat
  | [], substr => if substr = [] then some 0 else none
  | c :: s, substr =>
    if HasPrefix (c :: s) substr then some 0 else (Index s substr).map (· + 1)

/-! ## UTF-8 (`unicode/utf8`) -/

/-- Go `utf8.RuneError`, U+FFFD. -/
def RuneError : Nat := 0xFFFD

/-- Go `utf8.MaxRune`, U+10FFFF. -/
def MaxRune : Nat := 0x10FFFF

/-- The table `first` of `unicode/utf8`: information about the first byte of a
UTF-8 sequence (`0xF0` ASCII, `0xF1` invalid, otherwise the accept-range index
in the high nibble and the size in the low one). -/
def first (b : Nat) : Nat :=
  if b < 0x80 then 0xF0
  else if b < 0xC2 then 0xF1
  else if b < 0xE0 then 0x02
  else if b = 0xE0 then 0x13
  else if b < 0xED then 0x03
  else if b = 0xED then 0x23
  else if b < 0xF0 then 0x03
  else if b = 0xF0 then 0x34
  else if b < 0xF4 then 0x04
  else if b = 0xF4 then 0x44
  else 0xF1

/-- The table `acceptRanges` of `unicode/utf8`: the range `(lo, hi)` allowed
for the second byte of a sequence. -/
def acceptRanges (i : Nat) : Nat × Nat :=
  match i with
  | 0 => (0x80, 0xBF)
  | 1 => (0xA0, 0xBF)
  | 2 => (0x80, 0x9F)
  | 3 => (0x90, 0xBF)
  | 4 => (0x80, 0x8F)
  | _ => (0, 0)

/-- Go `utf8.DecodeRuneInString(s)`: the first rune of `s` and its width in
bytes; `(RuneError, 0)` for the empty string and `(RuneError, 1)` for an
invalid encoding.  This is also what a `for range` over a string yields. -/
def DecodeRuneInString (s : GoString) : Nat × Nat :=
  match s with
  | [] => (RuneError, 0)
  | s0 :: t0 =>
    let x := first s0
    if x ≥ 0xF0 then
      (if x = 0xF0 then s0 else RuneError, 1)
    else
      let sz := x &&& 7
      let accept := acceptRanges (x >>> 4)
      if s.length < sz then (RuneError, 1) else
      match t0 with
      | [] => (RuneError, 1)
      | s1 :: t1 =>
        if s1 < accept.1 ∨ accept.2 < s1 then (RuneError, 1)
        else if sz ≤ 2 then ((s0 &&& 0x1F) <<< 6 ||| (s1 &&& 0x3F), 2)
        else
          match t1 with
          | [] => (RuneError, 1)
          | s2 :: t2 =>
            if s2 < 0x80 ∨ 0xBF < s2 then (RuneError, 1)
            else if sz ≤ 3 then
              ((s0 &&& 0x0F) <<< 12 ||| (s1 &&& 0x3F) <<< 6 ||| (s2 &&& 0x3F), 3)
            else
              match t2 with
              | [] => (RuneError, 1)
              | s3 :: _ =>
                if s3 < 0x80 ∨ 0xBF < s3 then (RuneError, 1)
                else
                  ((s0 &&& 0x07) <<< 18 ||| (s1 &&& 0x3F) <<< 12 ||| (s2 &&& 0x3F) <<< 6
                    ||| (s3 &&& 0x3F), 4)

/-- Go `utf8.EncodeRune` (as used by `strings.Builder.WriteRune`): the UTF-8
encoding of a rune; a surrogate or a value above `MaxRune` is encoded as
`RuneError`.  `byte(x)` is `x % 256`. -/
def EncodeRune (r : Nat) : GoString :=
  if r ≤ 0x7F then [r]
  else if r ≤ 0x7FF then [0xC0 ||| (r >>> 6) % 256, 0x80 ||| (r % 256 &&& 0x3F)]
  else
    let r3 := if r > MaxRune ∨ (0xD800 ≤ r ∧ r ≤ 0xDFFF) then RuneError else r
    if r > MaxRune ∨ (0xD800 ≤ r ∧ r ≤ 0xDFFF) ∨ r ≤ 0xFFFF then
      [0xE0 ||| (r3 >>> 12) % 256, 0x80 ||| ((r3 >>> 6) % 256 &&& 0x3F),
        0x80 ||| (r3 % 256 &&& 0x3F)]
    else
      [0xF0 ||| (r >>> 18) % 256, 0x80 ||| ((r >>> 12) % 256 &&& 0x3F),
        0x80 ||| ((r >>> 6) % 256 &&& 0x3F), 0x80 ||| (r % 256 &&& 0x3F)]

/-- The loop of Go `utf8.RuneCountInString`; `fuel` bounds the number of runes
and is taken to be the length of the string. -/
def RuneCountInString.loop : Nat → GoString → Nat
  | 0, _ => 0
  | fuel + 1, s =>
    if s = [] then 0
    else RuneCountInString.loop fuel (s.drop (DecodeRuneInString s).2) + 1

/-- Go `utf8.RuneCountInString(s)`. -/
def RuneCountInString (s : GoString) : Nat := RuneCountInString.loop s.length s

/-! ## `strings.Count` and `strings.Replace` -/

/-- The loop of Go `strings.Count` for a non-empty `substr`: find the next
occurrence, count it, continue behind it.  `fuel` bounds the iterations. -/
def Count.loop (substr : GoString) : Nat → GoString → Nat
  | 0, _ => 0
  | fuel + 1, s =>
    match Index s substr with
    | none => 0
    | some i => Count.loop substr fuel (s.drop (i + substr.length)) + 1

/-- Go `strings.Count(s, substr)`: the number of non-overlapping occurrences
of `substr` in `s`, and one more than the number of runes when `substr` is
empty. -/
def Count (s substr : GoString) : Nat :=
  if substr = [] then RuneCountInString s + 1 else Count.loop substr (s.length + 1) s

/-- The replacement loop of Go `strings.Replace`, on the unread rest
`s[start:]` of the input: `n` replacements remain; `fst` says that this is
the first iteration (`i == 0`).  The value is the text written from here on,
the copy of the final rest included.  (`Replace` runs the loop `Count` times
at most, so `Index` finds an occurrence in every iteration; the branch for
`none` is never taken.) -/
def Replace.loop (old new : GoString) : Nat → Bool → GoString → GoString
  | 0, _, rest => rest
  | n + 1, fst, rest =>
    let j : Option Nat :=
      if old = [] then some (if fst then 0 else (DecodeRuneInString rest).2)
      else Index rest old
    match j with
    | none => rest
    | some j =>
      rest.take j ++ new ++ Replace.loop old new n false (rest.drop (j + old.length))

/-- Go `strings.Replace(s, old, new, n)`: a copy of `s` with the first `n`
non-overlapping instances of `old` replaced by `new`, all of them when `n < 0`. -/
def Replace (s old new : GoString) (n : Int) : GoString :=
  if old = new ∨ n = 0 then s
  else
    let m := Count s old
    if m = 0 then s
    else Replace.loop old new (if n < 0 ∨ (m : Int) < n then m else n.toNat) true s


/-! ## `path/filepath` (Unix: the separator is `/`) -/

/-- Go `os.IsPathSeparator` on Unix: the byte `/`. -/
def IsPathSeparator (c : Nat) : Bool := c == 47

/-- The backward scan of Go `filepath.Split`, over the reversed path: `file`
collects the bytes passed so far; the scan stops at the first separator. -/
def Split.scan : GoString → GoString → GoString
  | [], file => file
  | c :: before, file => if IsPathSeparator c then file else Split.scan before (c :: file)

/-- Go `filepath.Split(path)`: the directory, up to and including the final
separator, and the file name behind it (the volume name is empty on Unix). -/
def Split (path : GoString) : GoString × GoString :=
  let file := Split.scan path.reverse []
  (path.take (path.length - file.length), file)

/-- The backward scan of Go `filepath.Ext`, over the reversed path: it stops
with no extension at a separator and with the suffix from the dot on at the
first dot met. -/
def Ext.scan : GoString → GoString → GoString
  | [], _ => []
  | c :: before, suffix =>
    if IsPathSeparator c then []
    else if c = 46 then c :: suffix
    else Ext.scan before (c :: suffix)

/-- Go `filepath.Ext(path)`: the suffix beginning at the final dot of the final
element of `path`, empty when there is no dot. -/
def Ext (path : GoString) : GoString := Ext.scan path.reverse []

/-! ## `strings.Title` -/

/-- The tables of Go package `unicode`, consulted for runes above ASCII only. -/
structure Unicode where
  /-- Go `unicode.IsLetter`. -/
  IsLetter : Nat → Bool
  /-- Go `unicode.IsDigit`. -/
  IsDigit : Nat → Bool
  /-- Go `unicode.IsSpace`. -/
  IsSpace : Nat → Bool
  /-- Go `unicode.To(unicode.TitleCase, r)`. -/
  ToTitleCase : Nat → Nat

/-- Go `strings.isSeparator`: ASCII alphanumerics and underscore are not
separators, every other ASCII rune is; above ASCII, letters and digits are not
separators and of the rest only spaces are. -/
def isSeparator (U : Unicode) (r : Nat) : Bool :=
  if r ≤ 0x7F then
    if 48 ≤ r ∧ r ≤ 57 then false
    else if 97 ≤ r ∧ r ≤ 122 then false
    else if 65 ≤ r ∧ r ≤ 90 then false
    else if r = 95 then false
    else true
  else if U.IsLetter r || U.IsDigit r then false
  else U.IsSpace r

/-- Go `unicode.ToTitle`: for ASCII, title case is upper case. -/
def ToTitle (U : Unicode) (r : Nat) : Nat :=
  if r ≤ 0x7F then
    if 97 ≤ r ∧ r ≤ 122 then r - (97 - 65) else r
  else U.ToTitleCase r

/-- The loop of Go `strings.Map` under the closure of `strings.Title`: `prev`
is the closure variable (the previous rune), `s` the unread rest.  Each rune
that `range` yields is mapped (to title case after a separator, to itself
otherwise) and written in UTF-8. -/
def Title.loop (U : Unicode) : Nat → Nat → GoString → GoString
  | 0, _, _ => []
  | fuel + 1, prev, s =>
    if s = [] then []
    else
      let c := DecodeRuneInString s
      let r := if isSeparator U prev then ToTitle U c.1 else c.1
      EncodeRune r ++ Title.loop U fuel c.1 (s.drop c.2)

/-- Go `strings.Title(s)`: `s` with the first rune of every word mapped to its
title case.  The closure starts with `prev = ' '`. -/
def Title (U : Unicode) (s : GoString) : GoString := Title.loop U s.length 32 s

/-! ## `fmt`: the verb `%s` -/

/-- An operand of `fmt.Sprintf`: a `string` or a `[]string`. -/
inductive Arg where
  | s (v : GoString)
  | ss (v : List GoString)

/-- How `%s` prints an operand: a string as it is, a slice of strings in
brackets with its elements separated by one space. -/
def Arg.format : Arg → GoString
  | .s v => v
  | .ss vs => str "[" ++ (vs.intersperse (str " ")).flatten ++ str "]"

/-- Go `fmt.Sprintf` for the formats of `main.go`, literal text and `%s`
verbs with one operand each.  (A `%s` without an operand prints Go's
`%!s(MISSING)`; other verbs and surplus operands do not occur in `main.go`
and are not interpreted.) -/
def Sprintf : GoString → List Arg → GoString
  | [], _ => []
  | c :: rest, args =>
    if c = 37 then
      match rest, args with
      | [], _ => [c]
      | v :: rest1, [] =>
        if v = 115 then str "%!s(MISSING)" ++ Sprintf rest1 [] else c :: v :: Sprintf rest1 []
      | v :: rest1, a :: args1 =>
        if v = 115 then a.format ++ Sprintf rest1 args1 else c :: v :: Sprintf rest1 (a :: args1)
    else c :: Sprintf rest args

/-! ## `encoding/base64` -/

/-- The alphabet `encodeStd` of `base64.StdEncoding`. -/
def encodeStd : GoString :=
  str "ABCDEFGHIJKLMNOPQRSTUVWXYZabcdefghijklmnopqrstuvwxyz0123456789+/"

/-- The padding character `=` of `base64.StdEncoding`. -/
def StdPadding : Nat := 61

/-- The lookup `enc.encode[v]`. -/
def encodeByte (v : Nat) : Nat := encodeStd.getD v 0

/-- Go `base64.StdEncoding.EncodeToString(src)`: every 3 source bytes become 4
alphabet characters; a remainder of 1 or 2 bytes becomes 2 or 3 characters
followed by padding.  No line breaks are written. -/
def EncodeToString : List Nat → GoString
  | s0 :: s1 :: s2 :: src =>
    let val := s0 <<< 16 ||| s1 <<< 8 ||| s2
    encodeByte (val >>> 18 &&& 0x3F) :: encodeByte (val >>> 12 &&& 0x3F) ::
      encodeByte (val >>> 6 &&& 0x3F) :: encodeByte (val &&& 0x3F) :: EncodeToString src
  | [s0, s1] =>
    let val := s0 <<< 16 ||| s1 <<< 8
    [encodeByte (val >>> 18 &&& 0x3F), encodeByte (val >>> 12 &&& 0x3F),
      encodeByte (val >>> 6 &&& 0x3F), StdPadding]
  | [s0] =>
    let val := s0 <<< 16
    [encodeByte (val >>> 18 &&& 0x3F), encodeByte (val >>> 12 &&& 0x3F), StdPadding, StdPadding]
  | [] => []

/-- The value of an alphabet character (the inverse of `encodeByte`), `none`
for a byte outside the alphabet. -/
def decodeByte (c : Nat) : Option Nat :=
  if encodeStd.indexOf c < 64 then some (encodeStd.indexOf c) else none

/-- Standard base64 decoding (RFC 4648, with padding, without line breaks), the
reading that the bin-mode round trip is stated against: the input is read in
groups of 4 characters; a group of 4 alphabet characters gives 3 bytes; the
last group may end in one or two padding characters and then gives 2 bytes or
1 byte.  Anything else is rejected with `none`. -/
def DecodeString : GoString → Option (List Nat)
  | [] => some []
  | c0 :: c1 :: c2 :: c3 :: rest =>
    if rest = [] ∧ c3 = StdPadding then
      if c2 = StdPadding then
        match decodeByte c0, decodeByte c1 with
        | some v0, some v1 => some [(v0 * 2 ^ 18 + v1 * 2 ^ 12) / 2 ^ 16 % 256]
        | _, _ => none
      else
        match decodeByte c0, decodeByte c1, decodeByte c2 with
        | some v0, some v1, some v2 =>
          some [(v0 * 2 ^ 18 + v1 * 2 ^ 12 + v2 * 2 ^ 6) / 2 ^ 16 % 256,
            (v0 * 2 ^ 18 + v1 * 2 ^ 12 + v2 * 2 ^ 6) / 2 ^ 8 % 256]
        | _, _, _ => none
    else
      match decodeByte c0, decodeByte c1, decodeByte c2, decodeByte c3, DecodeString rest with
      | some v0, some v1, some v2, some v3, some out =>
        some ((v0 * 2 ^ 18 + v1 * 2 ^ 12 + v2 * 2 ^ 6 + v3) / 2 ^ 16 % 256 ::
          (v0 * 2 ^ 18 + v1 * 2 ^ 12 + v2 * 2 ^ 6 + v3) / 2 ^ 8 % 256 ::
          (v0 * 2 ^ 18 + v1 * 2 ^ 12 + v2 * 2 ^ 6 + v3) % 256 :: out)
      | _, _, _, _, _ => none
  | _ => none


/-! ## The environment of a run -/

/-- What `main` obtains from outside the program. -/
structure World where
  /-- Go `filepath.Glob(pattern)`: the matching paths, or the message of the
  error (`filepath.ErrBadPattern`) for a malformed pattern. -/
  Glob : GoString → Except GoString (List GoString)
  /-- Go `ioutil.ReadFile(name)`: the bytes of the file, `none` when the read
  fails. -/
  ReadFile : GoString → Option (List Nat)
  /-- Go `os.LookupEnv(key)`. -/
  LookupEnv : GoString → Option GoString
  /-- The value of `time.Now().Format(time.RFC3339)`. -/
  Now : GoString
  /-- The tables of package `unicode`. -/
  unicode : Unicode

/-- Go `os.Stdin.Name()`. -/
def StdinName : GoString := str "/dev/stdin"

/-- What a run of `main` does to the outside: the lines printed on standard
error, in order; the text printed on standard output; the calls of
`ioutil.WriteFile`, as pairs of file name and data. -/
structure Outcome where
  stderr : List GoString
  stdout : GoString
  written : List (GoString × GoString)

/-! ## `main.go` -/

/-- The type `file` of `main.go`. -/
structure file where
  Name : GoString
  Content : GoString
  Comment : GoString

/-- The type `data` of `main.go`. -/
structure data where
  Time : GoString
  Package : GoString
  Files : List file

/-- Lines 44-56 of `main`: the loop over `flag.Args()`.  The first component
is `files` after the loop, the second the diagnostics printed by it. -/
def globLoop (W : World) : List GoString → List GoString × List GoString
  | [] => ([], [])
  | glob :: args =>
    match W.Glob glob with
    | .error err =>
      ((globLoop W args).1,
        Sprintf (str "include: error: with glob '%s': %s\n") [.s glob, .s err] ::
          (globLoop W args).2)
    | .ok filenames =>
      if filenames.length > 0 then
        (filenames ++ (globLoop W args).1, (globLoop W args).2)
      else
        ((globLoop W args).1,
          Sprintf (str "include: found no files matching '%s'\n") [.s glob] ::
            (globLoop W args).2)

/-- Lines 44-61 of `main`: `files` when the fatal check is reached, the
matches of the patterns and, when no argument was given, the name of standard
input. -/
def resolveFiles (W : World) (args : List GoString) : List GoString :=
  let files := (globLoop W args).1
  if args.length = 0 then files ++ [StdinName] else files

/-- Lines 71-74 of `main`: the package name. -/
def pkgName (W : World) : GoString :=
  match W.LookupEnv (str "GOPACKAGE") with
  | some v => v
  | none => str "main"

/-- Lines 82-84 of `main`: the constant name of a file. -/
def deriveName (U : Unicode) (f : GoString) : GoString :=
  let name := (Split f).2
  let name := TrimSuffix name (Ext name)
  Title U name

/-- The `old` string of the `strings.Replace` of line 99: one back-tick. -/
def backtick : GoString := str "`"

/-- The `new` string of the `strings.Replace` of line 99: a back-tick that
closes the raw string literal, a back-tick in an interpreted string literal
and a back-tick that opens a raw string literal again, joined by ` + `. -/
def escaped : GoString := str "` + \"`\" + `"

/-- Lines 93-100 of `main`: the content of a constant.  The `switch` has no
`default`, so any other file type leaves `content` at its zero value. -/
def encodeContent (filetype : GoString) (contentBytes : List Nat) : GoString :=
  if filetype = str "bin" then EncodeToString contentBytes
  else if filetype = str "text" then
    Replace contentBytes backtick escaped (-1)
  else []

/-- Lines 82-104 of `main` for a file that was read: its entry. -/
def buildFile (U : Unicode) (filetype f : GoString) (contentBytes : List Nat) : file :=
  let name := deriveName U f
  let content := encodeContent filetype contentBytes
  let comment :=
    Sprintf (str "%s was sourced from %s file %s") [.s name, .s filetype, .s f]
  { Name := name, Content := content, Comment := comment }

/-- Lines 81-105 of `main`: the loop over `files`.  The first component is
`d.Files` after the loop, the second the diagnostics printed by it. -/
def buildLoop (W : World) (filetype : GoString) : List GoString → List file × List GoString
  | [] => ([], [])
  | f :: files =>
    match W.ReadFile f with
    | none =>
      ((buildLoop W filetype files).1,
        Sprintf (str "include: error: could not open %s\n") [.s f] ::
          (buildLoop W filetype files).2)
    | some contentBytes =>
      (buildFile W.unicode filetype f contentBytes :: (buildLoop W filetype files).1,
        (buildLoop W filetype files).2)

/-- The body of the `range .Files` action of the template `temp` for one
element: the comment line when the comment is not empty, a line break, the
`const` line printed by `printf` (it ends in a blank and a line break), and
the line break before `end`.  (The line break behind the `range` action is
removed by its trim marker.) -/
def temp.file (e : file) : GoString :=
  (if e.Comment ≠ [] then Sprintf (str "// %s") [.s e.Comment] else []) ++ str "\n" ++
    Sprintf (str "const %s = `%s` \n") [.s e.Name, .s e.Content] ++ str "\n"

/-- Lines 108-110 of `main`: the template `temp` executed on `d`. -/
def temp.Execute (d : data) : GoString :=
  str "// Generated code. DO NOT EDIT.\n// Generated on " ++ d.Time ++
    str "\n\npackage " ++ d.Package ++ str "\n\n" ++ (d.Files.map temp.file).flatten

/-- Lines 77-110 of `main`: the generated code for the resolved `files`. -/
def generate (W : World) (filetype : GoString) (files : List GoString) : GoString :=
  temp.Execute
    { Time := W.Now, Package := pkgName W, Files := (buildLoop W filetype files).1 }

/-- Lines 114-116 of `main`: the name of the written file, `outfile` with the
extension `.go` added when it does not have it. -/
def outputName (outfile : GoString) : GoString :=
  if ¬ HasSuffix outfile (str ".go") then outfile ++ str ".go" else outfile

/-- Lines 112-121 of `main`: where the generated code `buf` goes, as the text
printed on standard output and the calls of `ioutil.WriteFile`. -/
def output (outfile buf : GoString) : GoString × List (GoString × GoString) :=
  if outfile ≠ str "-" then ([], [(outputName outfile, buf)])
  else (buf, [])

/-- The function `main` of `main.go`, for the parsed flags `-o outfile` and
`-t filetype` and the remaining arguments `args` (`flag.Args()`). -/
def main (W : World) (outfile filetype : GoString) (args : List GoString) : Outcome :=
  let files := resolveFiles W args
  if files.length < 1 then
    { stderr := (globLoop W args).2 ++
        [Sprintf (str "include: error: found no files matching glob(s) %s\n") [.ss args]],
      stdout := [],
      written := [] }
  else
    let out := output outfile (generate W filetype files)
    { stderr := (globLoop W args).2 ++ (buildLoop W filetype files).2,
      stdout := out.1,
      written := out.2 }


/-! ## Notions used to state the properties -/

/-- The runes that a `for range` over `s` yields, in order (`fuel` bounds
their number). -/
def runes.loop : Nat → GoString → List Nat
  | 0, _ => []
  | fuel + 1, s =>
    if s = [] then []
    else (DecodeRuneInString s).1 :: runes.loop fuel (s.drop (DecodeRuneInString s).2)

/-- The runes of `s`. -/
def runes (s : GoString) : List Nat := runes.loop s.length s

/-- The rune that `strings.Title` writes for the rune `r` that follows the
rune `prev`. -/
def titleRune (U : Unicode) (prev r : Nat) : Nat :=
  if isSeparator U prev then ToTitle U r else r

/-- The match list that a pattern contributes to `files`: the result of
`filepath.Glob`, nothing for a malformed pattern. -/
def globMatches (W : World) (glob : GoString) : List GoString :=
  match W.Glob glob with
  | .error _ => []
  | .ok filenames => filenames

/-- The diagnostic that the loop over the arguments prints for a pattern
without matches. -/
def globDiagnostic (W : World) (glob : GoString) : GoString :=
  match W.Glob glob with
  | .error err => str "include: error: with glob '" ++ glob ++ str "': " ++ err ++ str "\n"
  | .ok _ => str "include: found no files matching '" ++ glob ++ str "'\n"

/-- The header of the generated code for the time `T` and the package `P`. -/
def header (T P : GoString) : GoString :=
  str "// Generated code. DO NOT EDIT.\n// Generated on " ++ T ++ str "\n\npackage " ++ P ++
    str "\n\n"

/-- The block of the generated code for one entry: the comment line, the
`const` line, and behind its closing back-tick a blank and two line breaks. -/
def block (e : file) : GoString :=
  str "// " ++ e.Comment ++ str "\n" ++ str "const " ++ e.Name ++ str " = `" ++ e.Content ++
    str "`" ++ str " \n\n"

/-- The entries of the files whose read succeeds, in the order of `files`. -/
def readEntries (W : World) (filetype : GoString) (files : List GoString) : List file :=
  files.filterMap fun f => (W.ReadFile f).map (buildFile W.unicode filetype f)

/-! ## Concrete environments -/

/-- Tables of package `unicode` that know no letter, digit or space above
ASCII and leave every rune above ASCII as it is. -/
def asciiTables : Unicode where
  IsLetter := fun _ => false
  IsDigit := fun _ => false
  IsSpace := fun _ => false
  ToTitleCase := fun r => r

/-- A directory with the files `a.txt` and `b.txt`: `*.txt` matches both,
`a*` matches `a.txt`, `b*` matches `b.txt`, `[` is malformed, every other
pattern matches nothing;
`a.txt` holds one back-tick between two words, `b.txt` cannot be read and
standard input is empty. -/
def sampleWorld : World where
  Glob := fun glob =>
    if glob = str "*.txt" then .ok [str "a.txt", str "b.txt"]
    else if glob = str "a*" then .ok [str "a.txt"]
    else if glob = str "b*" then .ok [str "b.txt"]
    else if glob = str "[" then .error (str "syntax error in pattern")
    else .ok []
  ReadFile := fun f =>
    if f = str "a.txt" then some (str "hello`world")
    else if f = StdinName then some []
    else none
  LookupEnv := fun _ => none
  Now := str "2019-03-01T12:00:00Z"
  unicode := asciiTables

/-! ## Searching and replacing -/

theorem HasPrefix_cons_cons (a b : Nat) (s t : GoString) :
    HasPrefix (a :: s) (b :: t) = (b == a && HasPrefix s t) := by
  simp [HasPrefix, List.isPrefixOf]

theorem Index_single_none (b : Nat) : ∀ s : GoString, Index s [b] = none → b ∉ s
  | [], _ => by simp
  | c :: s, h => by
    rw [Index] at h
    by_cases hc : b = c
    · simp [HasPrefix, List.isPrefixOf, hc] at h
    · simp [HasPrefix, List.isPrefixOf, hc] at h
      have := Index_single_none b s h
      simp [this, hc]

theorem Index_single_some (b : Nat) : ∀ (s : GoString) (j : Nat), Index s [b] = some j →
    ∃ pre post, s = pre ++ b :: post ∧ pre.length = j ∧ b ∉ pre
  | [], j, h => by simp [Index] at h
  | c :: s, j, h => by
    rw [Index] at h
    by_cases hc : b = c
    · simp [HasPrefix, List.isPrefixOf, hc] at h
      exact ⟨[], s, by simp [hc], by simp [h], by simp⟩
    · simp [HasPrefix, List.isPrefixOf, hc] at h
      obtain ⟨k, hk, rfl⟩ := h
      obtain ⟨pre, post, rfl, rfl, hn⟩ := Index_single_some b s k hk
      exact ⟨c :: pre, post, by simp, by simp, by simp [hn, hc]⟩

theorem Index_head_not_mem (b : Nat) (t : GoString) : ∀ s : GoString, b ∉ s →
    Index s (b :: t) = none
  | [], _ => by simp [Index]
  | c :: s, h => by
    simp only [List.mem_cons, not_or] at h
    rw [Index, HasPrefix_cons_cons]
    have hc : (b == c) = false := by simpa using h.1
    simp [hc, Index_head_not_mem b t s h.2]

theorem HasPrefix_append (s x : GoString) : HasPrefix (s ++ x) s = true := by
  simp [HasPrefix]

theorem Index_append_of_not_mem (b : Nat) (t x : GoString) : ∀ pre : GoString, b ∉ pre →
    Index (pre ++ (b :: t) ++ x) (b :: t) = some pre.length
  | [], _ => by
    have := HasPrefix_append (b :: t) x
    simp only [List.nil_append, List.cons_append] at this ⊢
    rw [Index, this]; simp
  | c :: pre, h => by
    simp only [List.mem_cons, not_or] at h
    have hc : (b == c) = false := by simpa using h.1
    simp only [List.cons_append]
    rw [Index, HasPrefix_cons_cons]
    have := Index_append_of_not_mem b t x pre h.2
    simp only [List.cons_append, List.append_assoc] at this
    simp [hc, this]


theorem Index_ne_nil_of_some {old : GoString} (hold : old ≠ []) :
    ∀ (s : GoString) (j : Nat), Index s old = some j → j + old.length ≤ s.length
  | [], j, h => by simp [Index, hold] at h
  | c :: s, j, h => by
    rw [Index] at h
    by_cases hp : HasPrefix (c :: s) old = true
    · simp [hp] at h
      subst h
      have : old <+: c :: s := by simpa [HasPrefix] using hp
      simpa using this.length_le
    · simp [hp] at h
      obtain ⟨k, hk, rfl⟩ := h
      have := Index_ne_nil_of_some hold s k hk
      simp; omega

theorem Count_loop_fuel {old : GoString} (hold : old ≠ []) :
    ∀ (f g : Nat) (s : GoString), s.length < f → s.length < g →
      Count.loop old f s = Count.loop old g s
  | 0, _, _, h, _ => by omega
  | _, 0, _, _, h => by omega
  | f + 1, g + 1, s, hf, hg => by
    simp only [Count.loop]
    cases hi : Index s old with
    | none => rfl
    | some i =>
      have hl := Index_ne_nil_of_some hold s i hi
      have hpos : 0 < old.length := List.length_pos.mpr hold
      simp only
      rw [Count_loop_fuel hold f g] <;> (simp only [List.length_drop]; omega)

theorem Replace_loop_flag {old : GoString} (hold : old ≠ []) (new : GoString) (n : Nat)
    (b : Bool) (s : GoString) :
    Replace.loop old new n b s = Replace.loop old new n false s := by
  cases n with
  | zero => simp [Replace.loop]
  | succ n => simp [Replace.loop, hold]

theorem Replace_of_Index_none {old : GoString} (hold : old ≠ []) (new s : GoString)
    (h : Index s old = none) : Replace s old new (-1) = s := by
  unfold Replace
  have : Count s old = 0 := by simp [Count, hold, Count.loop, h]
  simp [this]

theorem Replace_of_Index_some {old new : GoString} (hold : old ≠ []) (hne : old ≠ new)
    (s : GoString) (j : Nat) (h : Index s old = some j) :
    Replace s old new (-1) =
      s.take j ++ new ++ Replace (s.drop (j + old.length)) old new (-1) := by
  have hl := Index_ne_nil_of_some hold s j h
  have hpos : 0 < old.length := List.length_pos.mpr hold
  have hc : Count s old = Count (s.drop (j + old.length)) old + 1 := by
    rw [Count, Count, if_neg hold, if_neg hold, Count.loop]
    simp only [h]
    rw [Count_loop_fuel hold _ ((s.drop (j + old.length)).length + 1)] <;>
      (simp only [List.length_drop]; omega)
  unfold Replace
  simp only [hne, false_or, hc]
  simp only [show ((-1 : Int) = 0) = False by simp, if_false, Nat.succ_ne_zero,
    show ((-1 : Int) < 0) = True by simp, true_or, if_true]
  simp only [Replace.loop, hold, if_false, h]
  by_cases hz : Count (s.drop (j + old.length)) old = 0
  · simp [hz, Replace.loop]
  · simp only [hz, if_false]
    rw [Replace_loop_flag hold new _ true]

theorem Replace_escaped_backtick : ∀ (n : Nat) (s : GoString), s.length ≤ n →
    Replace (Replace s backtick escaped (-1)) escaped backtick (-1) = s
  | n, s, hn => by
    have hb : backtick = [96] := by decide
    have he : escaped = 96 :: [32, 43, 32, 34, 96, 34, 32, 43, 32, 96] := by decide
    have hb0 : backtick ≠ [] := by decide
    have he0 : escaped ≠ [] := by decide
    have hbe : backtick ≠ escaped := by decide
    cases hi : Index s backtick with
    | none =>
      rw [Replace_of_Index_none hb0 _ _ hi]
      rw [hb] at hi
      have hmem := Index_single_none 96 s hi
      exact Replace_of_Index_none he0 _ _ (by rw [he]; exact Index_head_not_mem 96 _ s hmem)
    | some j =>
      rw [Replace_of_Index_some hb0 hbe s j hi]
      have hi2 := hi
      rw [hb] at hi2
      obtain ⟨pre, post, rfl, rfl, hpre⟩ := Index_single_some 96 s j hi2
      have htake : (pre ++ 96 :: post).take pre.length = pre := by simp
      have hdrop : (pre ++ 96 :: post).drop (pre.length + backtick.length) = post := by
        simp [hb]
      rw [htake, hdrop]
      have hidx : Index (pre ++ escaped ++ Replace post backtick escaped (-1)) escaped
          = some pre.length := by
        rw [he]; exact Index_append_of_not_mem 96 _ _ pre hpre
      rw [Replace_of_Index_some he0 (Ne.symm hbe) _ _ hidx]
      have htake2 : (pre ++ escaped ++ Replace post backtick escaped (-1)).take pre.length
          = pre := by simp [List.append_assoc]
      have hdrop2 : (pre ++ escaped ++ Replace post backtick escaped (-1)).drop
          (pre.length + escaped.length) = Replace post backtick escaped (-1) := by
        rw [List.append_assoc, List.drop_append]; simp
      rw [htake2, hdrop2]
      cases n with
      | zero => simp at hn
      | succ n =>
        rw [Replace_escaped_backtick n post (by simp at hn; omega), hb]
        simp


theorem flatMap_single_of_not_mem (b : Nat) (new : GoString) : ∀ l : GoString, b ∉ l →
    l.flatMap (fun c => if c = b then new else [c]) = l
  | [], _ => rfl
  | c :: l, h => by
    simp only [List.mem_cons, not_or] at h
    have hc : ¬ c = b := fun e => h.1 e.symm
    simp [List.flatMap_cons, hc, flatMap_single_of_not_mem b new l h.2]

theorem Replace_single_eq_flatMap (b : Nat) (new : GoString) (hne : [b] ≠ new) :
    ∀ (n : Nat) (s : GoString), s.length ≤ n →
      Replace s [b] new (-1) = s.flatMap (fun c => if c = b then new else [c])
  | n, s, hn => by
    cases hi : Index s [b] with
    | none =>
      rw [Replace_of_Index_none (by simp) _ _ hi,
        flatMap_single_of_not_mem b new s (Index_single_none b s hi)]
    | some j =>
      rw [Replace_of_Index_some (by simp) hne s j hi]
      obtain ⟨pre, post, rfl, rfl, hpre⟩ := Index_single_some b s j hi
      cases n with
      | zero => simp at hn
      | succ n =>
        have ih := Replace_single_eq_flatMap b new hne n post (by simp at hn; omega)
        have hdrop : (pre ++ b :: post).drop (pre.length + [b].length) = post := by simp
        rw [hdrop, ih]
        simp [List.flatMap_append, List.flatMap_cons, flatMap_single_of_not_mem b new pre hpre]

/-- C1. Text-mode round trip: the text-mode `Content` that `main` builds for a
file with the bytes `s` (any byte string) is `s` with every back-tick replaced
by the 11-byte sequence `escaped`, and replacing, from left to right, every
non-overlapping occurrence of `escaped` in it by one back-tick gives `s` back. -/
theorem text_round_trip (U : Unicode) (f : GoString) (s : List Nat) :
    escaped.length = 11 ∧
    (buildFile U (str "text") f s).Content =
      s.flatMap (fun c => if c = 96 then escaped else [c]) ∧
    Replace (buildFile U (str "text") f s).Content escaped backtick (-1) = s := by
  have hc : (buildFile U (str "text") f s).Content = Replace s backtick escaped (-1) := by
    have h1 : ¬ (str "text" = str "bin") := by decide
    simp [buildFile, encodeContent, h1]
  refine ⟨by decide, ?_, ?_⟩
  · rw [hc]
    have hb : backtick = [96] := by decide
    rw [hb]
    exact Replace_single_eq_flatMap 96 escaped (by decide) s.length s le_rfl
  · rw [hc]
    exact Replace_escaped_backtick s.length s le_rfl

/-! ## base64 -/

theorem decodeByte_encodeByte : ∀ v, v < 64 → decodeByte (encodeByte v) = some v := by
  decide

theorem encodeByte_ne_padding : ∀ v, v < 64 → encodeByte v ≠ StdPadding := by
  decide

theorem encodeByte_mem : ∀ v, v < 64 → encodeByte v ∈ encodeStd := by
  decide

theorem and_63 (x : Nat) : x &&& 0x3F = x % 64 := by
  have := Nat.and_pow_two_sub_one_eq_mod x 6
  simpa using this

theorem bytes3_val (s0 s1 s2 : Nat) (h1 : s1 < 256) (h2 : s2 < 256) :
    (s0 <<< 16 ||| s1 <<< 8 ||| s2) = s0 * 65536 + s1 * 256 + s2 := by
  have e1 : s0 <<< 16 ||| s1 <<< 8 = s0 * 65536 + s1 * 256 := by
    rw [Nat.shiftLeft_eq, Nat.shiftLeft_eq]
    have h : s1 * 2 ^ 8 < 2 ^ 16 := by norm_num; omega
    have := Nat.mul_add_lt_is_or h s0
    rw [Nat.mul_comm s0 (2 ^ 16), ← this]
    norm_num
  rw [e1]
  have h : s2 < 2 ^ 8 := by norm_num; omega
  have := Nat.mul_add_lt_is_or h (s0 * 256 + s1)
  have e2 : s0 * 65536 + s1 * 256 = 2 ^ 8 * (s0 * 256 + s1) := by norm_num; omega
  rw [e2, ← this]

theorem bytes2_val (s0 s1 : Nat) (h1 : s1 < 256) :
    (s0 <<< 16 ||| s1 <<< 8) = s0 * 65536 + s1 * 256 := by
  have := bytes3_val s0 s1 0 h1 (by omega)
  simpa using this

theorem DecodeString_EncodeToString : ∀ b : List Nat, (∀ x ∈ b, x < 256) →
    DecodeString (EncodeToString b) = some b
  | [], _ => rfl
  | [s0], h => by
    have h0 : s0 < 256 := h s0 (by simp)
    simp only [EncodeToString, and_63, Nat.shiftRight_eq_div_pow, Nat.shiftLeft_eq]
    have a0 : s0 * 2 ^ 16 / 2 ^ 18 % 64 < 64 := Nat.mod_lt _ (by decide)
    have a1 : s0 * 2 ^ 16 / 2 ^ 12 % 64 < 64 := Nat.mod_lt _ (by decide)
    simp only [DecodeString, true_and, if_true, decodeByte_encodeByte _ a0,
      decodeByte_encodeByte _ a1]
    norm_num
    omega
  | [s0, s1], h => by
    have h0 : s0 < 256 := h s0 (by simp)
    have h1 : s1 < 256 := h s1 (by simp)
    simp only [EncodeToString, and_63, Nat.shiftRight_eq_div_pow, bytes2_val s0 s1 h1]
    have a0 : (s0 * 65536 + s1 * 256) / 2 ^ 18 % 64 < 64 := Nat.mod_lt _ (by decide)
    have a1 : (s0 * 65536 + s1 * 256) / 2 ^ 12 % 64 < 64 := Nat.mod_lt _ (by decide)
    have a2 : (s0 * 65536 + s1 * 256) / 2 ^ 6 % 64 < 64 := Nat.mod_lt _ (by decide)
    simp only [DecodeString, true_and, if_true, decodeByte_encodeByte _ a0,
      decodeByte_encodeByte _ a1, decodeByte_encodeByte _ a2,
      if_neg (encodeByte_ne_padding _ a2)]
    norm_num
    omega
  | s0 :: s1 :: s2 :: src, h => by
    have h0 : s0 < 256 := h s0 (by simp)
    have h1 : s1 < 256 := h s1 (by simp)
    have h2 : s2 < 256 := h s2 (by simp)
    have ih := DecodeString_EncodeToString src (fun x hx => h x (by simp [hx]))
    simp only [EncodeToString, and_63, Nat.shiftRight_eq_div_pow, bytes3_val s0 s1 s2 h1 h2]
    have a0 : (s0 * 65536 + s1 * 256 + s2) / 2 ^ 18 % 64 < 64 := Nat.mod_lt _ (by decide)
    have a1 : (s0 * 65536 + s1 * 256 + s2) / 2 ^ 12 % 64 < 64 := Nat.mod_lt _ (by decide)
    have a2 : (s0 * 65536 + s1 * 256 + s2) / 2 ^ 6 % 64 < 64 := Nat.mod_lt _ (by decide)
    have a3 : (s0 * 65536 + s1 * 256 + s2) % 64 < 64 := Nat.mod_lt _ (by decide)
    have hp : ¬ (EncodeToString src = [] ∧
        encodeByte ((s0 * 65536 + s1 * 256 + s2) % 64) = StdPadding) :=
      fun hh => encodeByte_ne_padding _ a3 hh.2
    simp only [DecodeString, if_neg hp, decodeByte_encodeByte _ a0, decodeByte_encodeByte _ a1,
      decodeByte_encodeByte _ a2, decodeByte_encodeByte _ a3, ih]
    norm_num
    omega

theorem EncodeToString_length : ∀ b : List Nat,
    (EncodeToString b).length = 4 * ((b.length + 2) / 3)
  | [] => rfl
  | [_] => by simp [EncodeToString]
  | [_, _] => by simp [EncodeToString]
  | _ :: _ :: _ :: src => by
    simp only [EncodeToString, List.length_cons, EncodeToString_length src]
    omega

theorem EncodeToString_alphabet : ∀ (b : List Nat) (c : Nat), c ∈ EncodeToString b →
    c ∈ encodeStd ∨ c = StdPadding
  | [], c, h => by simp [EncodeToString] at h
  | [s0], c, h => by
    simp only [EncodeToString, and_63, List.mem_cons, List.mem_singleton, List.not_mem_nil,
      or_false] at h
    rcases h with h | h | h | h
    · exact Or.inl (h ▸ encodeByte_mem _ (Nat.mod_lt _ (by decide)))
    · exact Or.inl (h ▸ encodeByte_mem _ (Nat.mod_lt _ (by decide)))
    · exact Or.inr h
    · exact Or.inr h
  | [s0, s1], c, h => by
    simp only [EncodeToString, and_63, List.mem_cons, List.mem_singleton, List.not_mem_nil,
      or_false] at h
    rcases h with h | h | h | h
    · exact Or.inl (h ▸ encodeByte_mem _ (Nat.mod_lt _ (by decide)))
    · exact Or.inl (h ▸ encodeByte_mem _ (Nat.mod_lt _ (by decide)))
    · exact Or.inl (h ▸ encodeByte_mem _ (Nat.mod_lt _ (by decide)))
    · exact Or.inr h
  | s0 :: s1 :: s2 :: src, c, h => by
    simp only [EncodeToString, and_63, List.mem_cons] at h
    rcases h with h | h | h | h | h
    · exact Or.inl (h ▸ encodeByte_mem _ (Nat.mod_lt _ (by decide)))
    · exact Or.inl (h ▸ encodeByte_mem _ (Nat.mod_lt _ (by decide)))
    · exact Or.inl (h ▸ encodeByte_mem _ (Nat.mod_lt _ (by decide)))
    · exact Or.inl (h ▸ encodeByte_mem _ (Nat.mod_lt _ (by decide)))
    · exact EncodeToString_alphabet src c h

/-- C2. Bin-mode round trip: for every sequence `b` of bytes read from a file,
the bin-mode `Content` is the standard base64 encoding of `b` (4 characters
for every 3 bytes started, each from the standard alphabet or the padding
`=`, so without line breaks), and standard base64 decoding of that `Content`
succeeds and yields `b`. -/
theorem bin_round_trip (U : Unicode) (f : GoString) (b : List Nat) (hb : ∀ x ∈ b, x < 256) :
    (buildFile U (str "bin") f b).Content = EncodeToString b ∧
    (buildFile U (str "bin") f b).Content.length = 4 * ((b.length + 2) / 3) ∧
    (∀ c ∈ (buildFile U (str "bin") f b).Content, c ∈ encodeStd ∨ c = StdPadding) ∧
    DecodeString (buildFile U (str "bin") f b).Content = some b := by
  have hc : (buildFile U (str "bin") f b).Content = EncodeToString b := by
    simp [buildFile, encodeContent]
  rw [hc]
  exact ⟨rfl, EncodeToString_length b, EncodeToString_alphabet b,
    DecodeString_EncodeToString b hb⟩

/-- C2, at a concrete input: the five bytes 255, 254, 253, 0, 1. -/
theorem bin_round_trip_witness :
    (∀ x ∈ [255, 254, 253, 0, 1], x < 256) ∧
    DecodeString (buildFile asciiTables (str "bin") (str "a.bin") [255, 254, 253, 0, 1]).Content
      = some [255, 254, 253, 0, 1] :=
  ⟨by decide, (bin_round_trip asciiTables (str "a.bin") [255, 254, 253, 0, 1] (by decide)).2.2.2⟩

/-! ## File names -/

theorem Split_scan_append (before file : GoString) : ∀ r : GoString, 47 ∉ r →
    Split.scan (r ++ 47 :: before) file = r.reverse ++ file
  | [], _ => by simp [Split.scan, IsPathSeparator]
  | c :: r, h => by
    simp only [List.mem_cons, not_or] at h
    have hc : ¬ c = 47 := fun e => h.1 e.symm
    simp [Split.scan, IsPathSeparator, hc, Split_scan_append before (c :: file) r h.2]

theorem Split_scan_all (file : GoString) : ∀ r : GoString, 47 ∉ r →
    Split.scan r file = r.reverse ++ file
  | [], _ => by simp [Split.scan]
  | c :: r, h => by
    simp only [List.mem_cons, not_or] at h
    have hc : ¬ c = 47 := fun e => h.1 e.symm
    simp [Split.scan, IsPathSeparator, hc, Split_scan_all (c :: file) r h.2]

theorem Split_file_of_dir (dir name : GoString) (h : 47 ∉ name) :
    (Split (dir ++ 47 :: name)).2 = name := by
  have h2 : 47 ∉ name.reverse := by simpa using h
  simp only [Split, List.reverse_append, List.reverse_cons, List.append_assoc,
    List.singleton_append]
  rw [Split_scan_append _ _ _ h2]
  simp

theorem Split_file_of_name (name : GoString) (h : 47 ∉ name) : (Split name).2 = name := by
  have h2 : 47 ∉ name.reverse := by simpa using h
  simp only [Split]
  rw [Split_scan_all _ _ h2]
  simp

theorem Ext_scan_append (before suffix : GoString) : ∀ r : GoString, 46 ∉ r → 47 ∉ r →
    Ext.scan (r ++ 46 :: before) suffix = 46 :: (r.reverse ++ suffix)
  | [], _, _ => by simp [Ext.scan, IsPathSeparator]
  | c :: r, h, h2 => by
    simp only [List.mem_cons, not_or] at h h2
    have hc : ¬ c = 46 := fun e => h.1 e.symm
    have hc2 : ¬ c = 47 := fun e => h2.1 e.symm
    simp [Ext.scan, IsPathSeparator, hc, hc2, Ext_scan_append before (c :: suffix) r h.2 h2.2]

theorem Ext_scan_none (suffix : GoString) : ∀ r : GoString, 46 ∉ r → Ext.scan r suffix = []
  | [], _ => by simp [Ext.scan]
  | c :: r, h => by
    simp only [List.mem_cons, not_or] at h
    have hc : ¬ c = 46 := fun e => h.1 e.symm
    by_cases hc2 : c = 47
    · simp [Ext.scan, IsPathSeparator, hc2]
    · simp [Ext.scan, IsPathSeparator, hc, hc2, Ext_scan_none (c :: suffix) r h.2]

theorem Ext_of_stem (stem ext : GoString) (h : 46 ∉ ext) (h2 : 47 ∉ ext) :
    Ext (stem ++ 46 :: ext) = 46 :: ext := by
  have h3 : 46 ∉ ext.reverse := by simpa using h
  have h4 : 47 ∉ ext.reverse := by simpa using h2
  simp only [Ext, List.reverse_append, List.reverse_cons, List.append_assoc,
    List.singleton_append]
  rw [Ext_scan_append _ _ _ h3 h4]
  simp

theorem Ext_of_no_dot (name : GoString) (h : 46 ∉ name) : Ext name = [] := by
  have h3 : 46 ∉ name.reverse := by simpa using h
  simp only [Ext]
  exact Ext_scan_none _ _ h3

theorem TrimSuffix_append (s suffix : GoString) : TrimSuffix (s ++ suffix) suffix = s := by
  simp [TrimSuffix, HasSuffix]

theorem TrimSuffix_nil (s : GoString) : TrimSuffix s [] = s := by
  simp [TrimSuffix, HasSuffix]

theorem TrimSuffix_Ext_of_stem (stem ext : GoString) (h : 46 ∉ ext) (h2 : 47 ∉ ext) :
    TrimSuffix (stem ++ 46 :: ext) (Ext (stem ++ 46 :: ext)) = stem := by
  rw [Ext_of_stem stem ext h h2, TrimSuffix_append]

theorem TrimSuffix_Ext_of_no_dot (name : GoString) (h : 46 ∉ name) :
    TrimSuffix name (Ext name) = name := by
  rw [Ext_of_no_dot name h, TrimSuffix_nil]

/-! ## Runes and `strings.Title` -/

theorem DecodeRuneInString_width_pos (c : Nat) (t : GoString) :
    1 ≤ (DecodeRuneInString (c :: t)).2 := by
  unfold DecodeRuneInString
  simp only
  repeat' split
  all_goals simp

theorem DecodeRuneInString_ascii (c : Nat) (t : GoString) (h : c ≤ 0x7F) :
    DecodeRuneInString (c :: t) = (c, 1) := by
  have hf : first c = 0xF0 := by
    unfold first
    rw [if_pos (by omega)]
  simp [DecodeRuneInString, hf]

theorem runes_loop_fuel : ∀ (f g : Nat) (s : GoString), s.length ≤ f → s.length ≤ g →
    runes.loop f s = runes.loop g s
  | _, _, [], _, _ => by
    rename_i f g
    cases f <;> cases g <;> simp [runes.loop]
  | 0, _, _ :: _, h, _ => by simp at h
  | _, 0, _ :: _, _, h => by simp at h
  | f + 1, g + 1, c :: t, hf, hg => by
    have hw := DecodeRuneInString_width_pos c t
    simp only [runes.loop, if_neg (List.cons_ne_nil c t)]
    rw [runes_loop_fuel f g] <;>
      (simp only [List.length_drop, List.length_cons] at *; omega)

theorem runes_nil : runes [] = [] := rfl

theorem runes_cons (c : Nat) (t : GoString) :
    runes (c :: t) = (DecodeRuneInString (c :: t)).1 ::
      runes ((c :: t).drop (DecodeRuneInString (c :: t)).2) := by
  have hw := DecodeRuneInString_width_pos c t
  simp only [runes, List.length_cons, runes.loop, if_neg (List.cons_ne_nil c t)]
  rw [runes_loop_fuel t.length] <;>
    (simp only [List.length_drop, List.length_cons] at *; omega)

theorem Title_loop_eq (U : Unicode) : ∀ (fuel prev : Nat) (s : GoString), s.length ≤ fuel →
    Title.loop U fuel prev s =
      (List.zipWith (titleRune U) (prev :: runes s) (runes s)).flatMap EncodeRune
  | fuel, prev, [], _ => by
    cases fuel <;> simp [Title.loop, runes_nil]
  | 0, _, _ :: _, h => by simp at h
  | fuel + 1, prev, c :: t, h => by
    have hw := DecodeRuneInString_width_pos c t
    simp only [Title.loop, if_neg (List.cons_ne_nil c t)]
    rw [Title_loop_eq U fuel, runes_cons c t]
    · simp [List.zipWith, titleRune, List.flatMap_cons]
    · simp only [List.length_drop, List.length_cons] at *; omega

theorem runes_ascii : ∀ s : GoString, (∀ c ∈ s, c ≤ 0x7F) → runes s = s
  | [], _ => rfl
  | c :: t, h => by
    rw [runes_cons, DecodeRuneInString_ascii c t (h c (by simp))]
    simp [runes_ascii t (fun x hx => h x (by simp [hx]))]

theorem ToTitle_ascii (U : Unicode) (r : Nat) (h : r ≤ 0x7F) : ToTitle U r ≤ 0x7F := by
  unfold ToTitle
  rw [if_pos h]
  split <;> omega

theorem titleRune_ascii (U : Unicode) (prev r : Nat) (h : r ≤ 0x7F) :
    titleRune U prev r ≤ 0x7F := by
  unfold titleRune
  split
  · exact ToTitle_ascii U r h
  · exact h

theorem flatMap_EncodeRune_zipWith (U : Unicode) : ∀ (s : GoString) (prev : Nat),
    (∀ c ∈ s, c ≤ 0x7F) →
    (List.zipWith (titleRune U) (prev :: s) s).flatMap EncodeRune =
      List.zipWith (titleRune U) (prev :: s) s
  | [], _, _ => rfl
  | c :: t, prev, h => by
    have hc := titleRune_ascii U prev c (h c (by simp))
    have ih := flatMap_EncodeRune_zipWith U t c (fun x hx => h x (by simp [hx]))
    simp only [List.zipWith, List.flatMap_cons, ih]
    simp [EncodeRune, hc]

/-! ## UTF-8: a valid encoding is written back as it was read -/

theorem lor_tag (i a b : Nat) (h : b < 2 ^ i) : 2 ^ i * a ||| b = 2 ^ i * a + b :=
  (Nat.mul_add_lt_is_or h a).symm

theorem lor_shift6 (a b : Nat) (h : b < 64) : a <<< 6 ||| b = a * 64 + b := by
  have := lor_tag 6 a b (by norm_num; omega)
  rw [Nat.shiftLeft_eq, Nat.mul_comm]
  simpa using this

theorem lor_shift12 (a b c : Nat) (hb : b < 64) (hc : c < 64) :
    a <<< 12 ||| b <<< 6 ||| c = a * 4096 + b * 64 + c := by
  have h1 : a <<< 12 ||| b <<< 6 = (a * 64 + b) <<< 6 := by
    have := lor_tag 12 a (b * 64) (by norm_num; omega)
    simp only [Nat.shiftLeft_eq]
    rw [Nat.mul_comm a (2 ^ 12), this]
    norm_num
    omega
  rw [h1, lor_shift6 _ _ hc]
  omega

theorem lor_shift18 (a b c d : Nat) (hb : b < 64) (hc : c < 64) (hd : d < 64) :
    a <<< 18 ||| b <<< 12 ||| c <<< 6 ||| d = a * 262144 + b * 4096 + c * 64 + d := by
  have h1 : a <<< 18 ||| b <<< 12 = (a * 64 + b) <<< 12 := by
    have := lor_tag 18 a (b * 4096) (by norm_num; omega)
    simp only [Nat.shiftLeft_eq]
    rw [Nat.mul_comm a (2 ^ 18), this]
    norm_num
    omega
  rw [h1, lor_shift12 _ _ _ hc hd]
  omega

theorem and_1F (x : Nat) : x &&& 0x1F = x % 32 := by
  simpa using Nat.and_pow_two_sub_one_eq_mod x 5

theorem and_0F (x : Nat) : x &&& 0x0F = x % 16 := by
  simpa using Nat.and_pow_two_sub_one_eq_mod x 4

theorem and_07 (x : Nat) : x &&& 0x07 = x % 8 := by
  simpa using Nat.and_pow_two_sub_one_eq_mod x 3

theorem lor_C0 (x : Nat) (h : x < 64) : 0xC0 ||| x = 192 + x := by
  simpa using lor_tag 6 3 x (by norm_num; omega)

theorem lor_80 (x : Nat) (h : x < 128) : 0x80 ||| x = 128 + x := by
  simpa using lor_tag 7 1 x (by norm_num; omega)

theorem lor_E0 (x : Nat) (h : x < 32) : 0xE0 ||| x = 224 + x := by
  simpa using lor_tag 5 7 x (by norm_num; omega)

theorem lor_F0 (x : Nat) (h : x < 16) : 0xF0 ||| x = 240 + x := by
  simpa using lor_tag 4 15 x (by norm_num; omega)

theorem EncodeRune_two (s0 s1 : Nat) (h0 : 0xC2 ≤ s0 ∧ s0 ≤ 0xDF) (h1 : 0x80 ≤ s1 ∧ s1 ≤ 0xBF) :
    EncodeRune ((s0 &&& 0x1F) <<< 6 ||| (s1 &&& 0x3F)) = [s0, s1] := by
  rw [and_1F, and_63, lor_shift6 _ _ (Nat.mod_lt _ (by decide))]
  unfold EncodeRune
  rw [if_neg (by omega), if_pos (by omega)]
  rw [and_63, Nat.shiftRight_eq_div_pow, lor_C0 _ (by norm_num; omega),
    lor_80 _ (by omega)]
  norm_num
  omega

theorem EncodeRune_three (s0 s1 s2 : Nat) (h0 : 0xE0 ≤ s0 ∧ s0 ≤ 0xEF)
    (h1 : 0x80 ≤ s1 ∧ s1 ≤ 0xBF) (h2 : 0x80 ≤ s2 ∧ s2 ≤ 0xBF)
    (hlo : s0 = 0xE0 → 0xA0 ≤ s1) (hhi : s0 = 0xED → s1 ≤ 0x9F) :
    EncodeRune ((s0 &&& 0x0F) <<< 12 ||| (s1 &&& 0x3F) <<< 6 ||| (s2 &&& 0x3F)) =
      [s0, s1, s2] := by
  rw [and_0F, and_63, and_63,
    lor_shift12 _ _ _ (Nat.mod_lt _ (by decide)) (Nat.mod_lt _ (by decide))]
  unfold EncodeRune MaxRune RuneError
  have hr : ¬ (s0 % 16 * 4096 + s1 % 64 * 64 + s2 % 64 > 1114111 ∨
      55296 ≤ s0 % 16 * 4096 + s1 % 64 * 64 + s2 % 64 ∧
        s0 % 16 * 4096 + s1 % 64 * 64 + s2 % 64 ≤ 57343) := by omega
  rw [if_neg (by omega), if_neg (by omega)]
  simp only [if_neg hr]
  rw [if_pos (by omega)]
  rw [and_63, and_63, Nat.shiftRight_eq_div_pow, Nat.shiftRight_eq_div_pow,
    lor_E0 _ (by norm_num; omega), lor_80 _ (by omega), lor_80 _ (by omega)]
  norm_num
  omega

theorem EncodeRune_four (s0 s1 s2 s3 : Nat) (h0 : 0xF0 ≤ s0 ∧ s0 ≤ 0xF4)
    (h1 : 0x80 ≤ s1 ∧ s1 ≤ 0xBF) (h2 : 0x80 ≤ s2 ∧ s2 ≤ 0xBF) (h3 : 0x80 ≤ s3 ∧ s3 ≤ 0xBF)
    (hlo : s0 = 0xF0 → 0x90 ≤ s1) (hhi : s0 = 0xF4 → s1 ≤ 0x8F) :
    EncodeRune ((s0 &&& 0x07) <<< 18 ||| (s1 &&& 0x3F) <<< 12 ||| (s2 &&& 0x3F) <<< 6 |||
      (s3 &&& 0x3F)) = [s0, s1, s2, s3] := by
  rw [and_07, and_63, and_63, and_63,
    lor_shift18 _ _ _ _ (Nat.mod_lt _ (by decide)) (Nat.mod_lt _ (by decide))
      (Nat.mod_lt _ (by decide))]
  unfold EncodeRune MaxRune RuneError
  have hr : ¬ (s0 % 8 * 262144 + s1 % 64 * 4096 + s2 % 64 * 64 + s3 % 64 > 1114111 ∨
      55296 ≤ s0 % 8 * 262144 + s1 % 64 * 4096 + s2 % 64 * 64 + s3 % 64 ∧
        s0 % 8 * 262144 + s1 % 64 * 4096 + s2 % 64 * 64 + s3 % 64 ≤ 57343 ∨
      s0 % 8 * 262144 + s1 % 64 * 4096 + s2 % 64 * 64 + s3 % 64 ≤ 65535) := by omega
  rw [if_neg (by omega), if_neg (by omega)]
  simp only
  rw [if_neg hr]
  rw [and_63, and_63, and_63, Nat.shiftRight_eq_div_pow, Nat.shiftRight_eq_div_pow,
    Nat.shiftRight_eq_div_pow,
    lor_F0 _ (by norm_num; omega), lor_80 _ (by omega), lor_80 _ (by omega),
    lor_80 _ (by omega)]
  norm_num
  omega

theorem DecodeRuneInString_short (s0 x : Nat) (t0 : GoString) (hf : first s0 = x)
    (hx : ¬ x ≥ 0xF0) (hlen : (s0 :: t0).length < x &&& 7) :
    DecodeRuneInString (s0 :: t0) = (RuneError, 1) := by
  simp only [DecodeRuneInString, hf, if_neg hx, if_pos hlen]

theorem DecodeRuneInString_size2 (s0 s1 x : Nat) (t1 : GoString) (lo hi : Nat)
    (hf : first s0 = x) (hx : ¬ x ≥ 0xF0) (hsz : x &&& 7 = 2)
    (hacc : acceptRanges (x >>> 4) = (lo, hi)) :
    DecodeRuneInString (s0 :: s1 :: t1) =
      if s1 < lo ∨ hi < s1 then (RuneError, 1)
      else ((s0 &&& 0x1F) <<< 6 ||| (s1 &&& 0x3F), 2) := by
  have hlen : ¬ (s0 :: s1 :: t1).length < 2 := by simp
  simp only [DecodeRuneInString, hf, if_neg hx, hsz, hacc, if_neg hlen, le_refl, if_true]

theorem DecodeRuneInString_size3 (s0 s1 s2 x : Nat) (t2 : GoString) (lo hi : Nat)
    (hf : first s0 = x) (hx : ¬ x ≥ 0xF0) (hsz : x &&& 7 = 3)
    (hacc : acceptRanges (x >>> 4) = (lo, hi)) :
    DecodeRuneInString (s0 :: s1 :: s2 :: t2) =
      if s1 < lo ∨ hi < s1 then (RuneError, 1)
      else if s2 < 0x80 ∨ 0xBF < s2 then (RuneError, 1)
      else ((s0 &&& 0x0F) <<< 12 ||| (s1 &&& 0x3F) <<< 6 ||| (s2 &&& 0x3F), 3) := by
  have hlen : ¬ (s0 :: s1 :: s2 :: t2).length < 3 := by simp
  have h32 : ¬ (3 ≤ 2) := by decide
  simp only [DecodeRuneInString, hf, if_neg hx, hsz, hacc, if_neg hlen, h32, if_false, le_refl,
    if_true]

theorem DecodeRuneInString_size4 (s0 s1 s2 s3 x : Nat) (t3 : GoString) (lo hi : Nat)
    (hf : first s0 = x) (hx : ¬ x ≥ 0xF0) (hsz : x &&& 7 = 4)
    (hacc : acceptRanges (x >>> 4) = (lo, hi)) :
    DecodeRuneInString (s0 :: s1 :: s2 :: s3 :: t3) =
      if s1 < lo ∨ hi < s1 then (RuneError, 1)
      else if s2 < 0x80 ∨ 0xBF < s2 then (RuneError, 1)
      else if s3 < 0x80 ∨ 0xBF < s3 then (RuneError, 1)
      else ((s0 &&& 0x07) <<< 18 ||| (s1 &&& 0x3F) <<< 12 ||| (s2 &&& 0x3F) <<< 6 |||
        (s3 &&& 0x3F), 4) := by
  have hlen : ¬ (s0 :: s1 :: s2 :: s3 :: t3).length < 4 := by simp
  have h42 : ¬ (4 ≤ 2) := by decide
  have h43 : ¬ (4 ≤ 3) := by decide
  simp only [DecodeRuneInString, hf, if_neg hx, hsz, hacc, if_neg hlen, h42, h43, if_false]

theorem EncodeRune_Decode_size2 (s0 x lo hi : Nat) (t0 : GoString)
    (h0 : 0xC2 ≤ s0 ∧ s0 ≤ 0xDF)
    (hf : first s0 = x) (hx : ¬ x ≥ 0xF0) (hsz : x &&& 7 = 2)
    (hacc : acceptRanges (x >>> 4) = (lo, hi)) (hlo : 0x80 ≤ lo) (hhi : hi ≤ 0xBF)
    (hv : DecodeRuneInString (s0 :: t0) ≠ (RuneError, 1)) :
    EncodeRune (DecodeRuneInString (s0 :: t0)).1 =
      (s0 :: t0).take (DecodeRuneInString (s0 :: t0)).2 := by
  match t0 with
  | [] => exact absurd (DecodeRuneInString_short s0 x [] hf hx (by simp [hsz])) hv
  | s1 :: t1 =>
    rw [DecodeRuneInString_size2 s0 s1 x t1 lo hi hf hx hsz hacc] at hv ⊢
    by_cases h1 : s1 < lo ∨ hi < s1
    · simp [h1] at hv
    · simp only [if_neg h1]
      rw [EncodeRune_two s0 s1 h0 (by omega)]
      rfl

theorem EncodeRune_Decode_size3 (s0 x lo hi : Nat) (t0 : GoString)
    (h0 : 0xE0 ≤ s0 ∧ s0 ≤ 0xEF)
    (hf : first s0 = x) (hx : ¬ x ≥ 0xF0) (hsz : x &&& 7 = 3)
    (hacc : acceptRanges (x >>> 4) = (lo, hi)) (hlo : 0x80 ≤ lo) (hhi : hi ≤ 0xBF)
    (hE0 : s0 = 0xE0 → 0xA0 ≤ lo) (hED : s0 = 0xED → hi ≤ 0x9F)
    (hv : DecodeRuneInString (s0 :: t0) ≠ (RuneError, 1)) :
    EncodeRune (DecodeRuneInString (s0 :: t0)).1 =
      (s0 :: t0).take (DecodeRuneInString (s0 :: t0)).2 := by
  match t0 with
  | [] => exact absurd (DecodeRuneInString_short s0 x [] hf hx (by simp [hsz])) hv
  | [s1] => exact absurd (DecodeRuneInString_short s0 x [s1] hf hx (by simp [hsz])) hv
  | s1 :: s2 :: t2 =>
    rw [DecodeRuneInString_size3 s0 s1 s2 x t2 lo hi hf hx hsz hacc] at hv ⊢
    by_cases h1 : s1 < lo ∨ hi < s1
    · simp [h1] at hv
    · by_cases h2 : s2 < 0x80 ∨ 0xBF < s2
      · simp [h1, h2] at hv
      · simp only [if_neg h1, if_neg h2]
        rw [EncodeRune_three s0 s1 s2 h0 (by omega) (by omega)
          (fun e => by have := hE0 e; omega) (fun e => by have := hED e; omega)]
        rfl

theorem EncodeRune_Decode_size4 (s0 x lo hi : Nat) (t0 : GoString)
    (h0 : 0xF0 ≤ s0 ∧ s0 ≤ 0xF4)
    (hf : first s0 = x) (hx : ¬ x ≥ 0xF0) (hsz : x &&& 7 = 4)
    (hacc : acceptRanges (x >>> 4) = (lo, hi)) (hlo : 0x80 ≤ lo) (hhi : hi ≤ 0xBF)
    (hF0 : s0 = 0xF0 → 0x90 ≤ lo) (hF4 : s0 = 0xF4 → hi ≤ 0x8F)
    (hv : DecodeRuneInString (s0 :: t0) ≠ (RuneError, 1)) :
    EncodeRune (DecodeRuneInString (s0 :: t0)).1 =
      (s0 :: t0).take (DecodeRuneInString (s0 :: t0)).2 := by
  match t0 with
  | [] => exact absurd (DecodeRuneInString_short s0 x [] hf hx (by simp [hsz])) hv
  | [s1] => exact absurd (DecodeRuneInString_short s0 x [s1] hf hx (by simp [hsz])) hv
  | [s1, s2] => exact absurd (DecodeRuneInString_short s0 x [s1, s2] hf hx (by simp [hsz])) hv
  | s1 :: s2 :: s3 :: t3 =>
    rw [DecodeRuneInString_size4 s0 s1 s2 s3 x t3 lo hi hf hx hsz hacc] at hv ⊢
    by_cases h1 : s1 < lo ∨ hi < s1
    · simp [h1] at hv
    · by_cases h2 : s2 < 0x80 ∨ 0xBF < s2
      · simp [h1, h2] at hv
      · by_cases h3 : s3 < 0x80 ∨ 0xBF < s3
        · simp [h1, h2, h3] at hv
        · simp only [if_neg h1, if_neg h2, if_neg h3]
          rw [EncodeRune_four s0 s1 s2 s3 h0 (by omega) (by omega) (by omega)
            (fun e => by have := hF0 e; omega) (fun e => by have := hF4 e; omega)]
          rfl

theorem EncodeRune_DecodeRuneInString (s0 : Nat) (t0 : GoString)
    (hv : DecodeRuneInString (s0 :: t0) ≠ (RuneError, 1)) :
    EncodeRune (DecodeRuneInString (s0 :: t0)).1 =
      (s0 :: t0).take (DecodeRuneInString (s0 :: t0)).2 := by
  by_cases hA : s0 < 0x80
  · rw [DecodeRuneInString_ascii s0 t0 (by omega)]
    simp [EncodeRune, show s0 ≤ 127 by omega]
  by_cases hB : s0 < 0xC2 ∨ 0xF4 < s0
  · exfalso
    apply hv
    have hf : first s0 = 0xF1 := by
      unfold first
      rcases hB with hB | hB
      · rw [if_neg (by omega), if_pos (by omega)]
      · simp only [if_neg hA, show ¬ s0 < 194 by omega, show ¬ s0 < 224 by omega,
          show ¬ s0 = 224 by omega, show ¬ s0 < 237 by omega, show ¬ s0 = 237 by omega,
          show ¬ s0 < 240 by omega, show ¬ s0 = 240 by omega, show ¬ s0 < 244 by omega,
          show ¬ s0 = 244 by omega, if_false]
    simp [DecodeRuneInString, hf]
  by_cases hC : s0 < 0xE0
  · have hf : first s0 = 0x02 := by
      unfold first
      rw [if_neg (by omega), if_neg (by omega), if_pos (by omega)]
    exact EncodeRune_Decode_size2 s0 _ 0x80 0xBF t0 (by omega) hf (by decide) (by decide)
      (by decide) (by decide) (by decide) hv
  by_cases hD : s0 < 0xF0
  · have hf : first s0 = if s0 = 0xE0 then 0x13 else if s0 = 0xED then 0x23 else 0x03 := by
      unfold first
      rw [if_neg (by omega), if_neg (by omega), if_neg (by omega)]
      by_cases e1 : s0 = 0xE0
      · simp [e1]
      · by_cases e2 : s0 = 0xED
        · simp [e2]
        · simp only [if_neg e1, if_neg e2, if_pos hD]
          split <;> rfl
    by_cases e1 : s0 = 0xE0
    · rw [if_pos e1] at hf
      exact EncodeRune_Decode_size3 s0 _ 0xA0 0xBF t0 (by omega) hf (by decide) (by decide)
        (by decide) (by decide) (by decide) (fun _ => by decide) (fun e => by omega) hv
    · by_cases e2 : s0 = 0xED
      · rw [if_neg e1, if_pos e2] at hf
        exact EncodeRune_Decode_size3 s0 _ 0x80 0x9F t0 (by omega) hf (by decide) (by decide)
          (by decide) (by decide) (by decide) (fun e => by omega) (fun _ => by decide) hv
      · rw [if_neg e1, if_neg e2] at hf
        exact EncodeRune_Decode_size3 s0 _ 0x80 0xBF t0 (by omega) hf (by decide) (by decide)
          (by decide) (by decide) (by decide) (fun e => absurd e e1) (fun e => absurd e e2) hv
  · have hf : first s0 = if s0 = 0xF0 then 0x34 else if s0 = 0xF4 then 0x44 else 0x04 := by
      unfold first
      rw [if_neg (by omega), if_neg (by omega), if_neg (by omega), if_neg (by omega),
        if_neg (by omega), if_neg (by omega), if_neg (by omega)]
      by_cases e1 : s0 = 0xF0
      · simp [e1]
      · by_cases e2 : s0 = 0xF4
        · simp [e2]
        · simp only [if_neg e1, if_neg e2]
          rw [if_pos (by omega)]
    by_cases e1 : s0 = 0xF0
    · rw [if_pos e1] at hf
      exact EncodeRune_Decode_size4 s0 _ 0x90 0xBF t0 (by omega) hf (by decide) (by decide)
        (by decide) (by decide) (by decide) (fun _ => by decide) (fun e => by omega) hv
    · by_cases e2 : s0 = 0xF4
      · rw [if_neg e1, if_pos e2] at hf
        exact EncodeRune_Decode_size4 s0 _ 0x80 0x8F t0 (by omega) hf (by decide) (by decide)
          (by decide) (by decide) (by decide) (fun e => by omega) (fun _ => by decide) hv
      · rw [if_neg e1, if_neg e2] at hf
        exact EncodeRune_Decode_size4 s0 _ 0x80 0xBF t0 (by omega) hf (by decide) (by decide)
          (by decide) (by decide) (by decide) (fun e => absurd e e1) (fun e => absurd e e2) hv

theorem deriveName_of_dir_stem (U : Unicode) (dir stem ext : GoString) (hs : 47 ∉ stem)
    (he : 47 ∉ ext) (hd : 46 ∉ ext) :
    deriveName U (dir ++ 47 :: (stem ++ 46 :: ext)) = Title U stem := by
  have h : 47 ∉ stem ++ 46 :: ext := by simp [hs, he]
  simp only [deriveName, Split_file_of_dir dir _ h, TrimSuffix_Ext_of_stem stem ext hd he]

theorem deriveName_of_stem (U : Unicode) (stem ext : GoString) (hs : 47 ∉ stem)
    (he : 47 ∉ ext) (hd : 46 ∉ ext) :
    deriveName U (stem ++ 46 :: ext) = Title U stem := by
  have h : 47 ∉ stem ++ 46 :: ext := by simp [hs, he]
  simp only [deriveName, Split_file_of_name _ h, TrimSuffix_Ext_of_stem stem ext hd he]

theorem deriveName_of_dir_name (U : Unicode) (dir name : GoString) (hs : 47 ∉ name)
    (hd : 46 ∉ name) : deriveName U (dir ++ 47 :: name) = Title U name := by
  simp only [deriveName, Split_file_of_dir dir _ hs, TrimSuffix_Ext_of_no_dot name hd]

theorem deriveName_of_name (U : Unicode) (name : GoString) (hs : 47 ∉ name)
    (hd : 46 ∉ name) : deriveName U name = Title U name := by
  simp only [deriveName, Split_file_of_name _ hs, TrimSuffix_Ext_of_no_dot name hd]

theorem Title_gopher (U : Unicode) : Title U (str "gopher") = str "Gopher" := rfl

theorem Title_my_file (U : Unicode) : Title U (str "my_file") = str "My_file" := rfl

/-- C8. Name derivation: `Name` is the final element of the path (the text
behind the last `/`), without its last extension (the suffix from the final
dot on), passed through `strings.Title`: each rune is written in title case
(upper case for ASCII) when it is the first one or follows a separator, and
unchanged otherwise; ASCII letters, digits and the underscore, and letters and
digits above ASCII, are not separators.  `gopher.png` gives `Gopher` and
`my_file.txt` gives `My_file`, with or without a directory in front.  A rune
with a valid encoding is written with the bytes it was read from. -/
theorem name_derivation (U : Unicode) :
    (∀ dir name : GoString, 47 ∉ name →
      (Split (dir ++ 47 :: name)).2 = name ∧ (Split name).2 = name) ∧
    (∀ stem ext : GoString, 46 ∉ ext → 47 ∉ ext →
      TrimSuffix (stem ++ 46 :: ext) (Ext (stem ++ 46 :: ext)) = stem) ∧
    (∀ name : GoString, 46 ∉ name → TrimSuffix name (Ext name) = name) ∧
    (∀ dir stem ext : GoString, 47 ∉ stem → 47 ∉ ext → 46 ∉ ext →
      deriveName U (dir ++ 47 :: (stem ++ 46 :: ext)) = Title U stem ∧
      deriveName U (stem ++ 46 :: ext) = Title U stem) ∧
    (∀ dir name : GoString, 47 ∉ name → 46 ∉ name →
      deriveName U (dir ++ 47 :: name) = Title U name ∧ deriveName U name = Title U name) ∧
    (∀ s : GoString,
      Title U s = (List.zipWith (titleRune U) (32 :: runes s) (runes s)).flatMap EncodeRune) ∧
    (∀ (s : GoString) (fuel : Nat), s.length ≤ fuel → Title.loop U fuel 32 s = Title U s) ∧
    (∀ s : GoString, (∀ c ∈ s, c ≤ 0x7F) →
      runes s = s ∧ Title U s = List.zipWith (titleRune U) (32 :: s) s) ∧
    (∀ prev r : Nat, titleRune U prev r = if isSeparator U prev then ToTitle U r else r) ∧
    isSeparator U 32 = true ∧
    (∀ r : Nat, (48 ≤ r ∧ r ≤ 57) ∨ (65 ≤ r ∧ r ≤ 90) ∨ (97 ≤ r ∧ r ≤ 122) ∨ r = 95 →
      isSeparator U r = false) ∧
    (∀ r : Nat, 0x7F < r → U.IsLetter r = true ∨ U.IsDigit r = true →
      isSeparator U r = false) ∧
    (∀ r : Nat, 97 ≤ r ∧ r ≤ 122 → ToTitle U r = r - 32) ∧
    (∀ r : Nat, r ≤ 0x7F → ¬ (97 ≤ r ∧ r ≤ 122) → ToTitle U r = r) ∧
    (∀ dir : GoString, deriveName U (dir ++ str "/gopher.png") = str "Gopher") ∧
    deriveName U (str "gopher.png") = str "Gopher" ∧
    (∀ dir : GoString, deriveName U (dir ++ str "/my_file.txt") = str "My_file") ∧
    deriveName U (str "my_file.txt") = str "My_file" ∧
    (∀ (c : Nat) (t : GoString), DecodeRuneInString (c :: t) ≠ (RuneError, 1) →
      EncodeRune (DecodeRuneInString (c :: t)).1 =
        (c :: t).take (DecodeRuneInString (c :: t)).2) := by
  have hT : ∀ s : GoString,
      Title U s = (List.zipWith (titleRune U) (32 :: runes s) (runes s)).flatMap EncodeRune :=
    fun s => Title_loop_eq U s.length 32 s le_rfl
  refine ⟨fun dir name h => ⟨Split_file_of_dir dir name h, Split_file_of_name name h⟩,
    fun stem ext h h2 => TrimSuffix_Ext_of_stem stem ext h h2,
    fun name h => TrimSuffix_Ext_of_no_dot name h,
    fun dir stem ext hs he hd =>
      ⟨deriveName_of_dir_stem U dir stem ext hs he hd, deriveName_of_stem U stem ext hs he hd⟩,
    fun dir name hs hd =>
      ⟨deriveName_of_dir_name U dir name hs hd, deriveName_of_name U name hs hd⟩,
    hT, ?_, ?_, fun _ _ => rfl, rfl, ?_, ?_, ?_, ?_, ?_, ?_, ?_, ?_,
    EncodeRune_DecodeRuneInString⟩
  · intro s fuel h
    rw [Title_loop_eq U fuel 32 s h, hT]
  · intro s h
    have hr := runes_ascii s h
    refine ⟨hr, ?_⟩
    rw [hT, hr, flatMap_EncodeRune_zipWith U s 32 h]
  · intro r h
    unfold isSeparator
    rcases h with h | h | h | h
    · rw [if_pos (by omega), if_pos h]
    · rw [if_pos (by omega), if_neg (by omega), if_neg (by omega), if_pos h]
    · rw [if_pos (by omega), if_neg (by omega), if_pos h]
    · rw [if_pos (by omega), if_neg (by omega), if_neg (by omega), if_neg (by omega),
        if_pos h]
  · intro r h hl
    unfold isSeparator
    rw [if_neg (by omega)]
    rcases hl with hl | hl <;> simp [hl]
  · intro r h
    unfold ToTitle
    rw [if_pos (by omega), if_pos h]
  · intro r h hn
    unfold ToTitle
    rw [if_pos h, if_neg hn]
  · intro dir
    have e : str "/gopher.png" = 47 :: (str "gopher" ++ 46 :: str "png") := by decide
    rw [e, deriveName_of_dir_stem U dir _ _ (by decide) (by decide) (by decide)]
    exact Title_gopher U
  · have e : str "gopher.png" = str "gopher" ++ 46 :: str "png" := by decide
    rw [e, deriveName_of_stem U _ _ (by decide) (by decide) (by decide)]
    exact Title_gopher U
  · intro dir
    have e : str "/my_file.txt" = 47 :: (str "my_file" ++ 46 :: str "txt") := by decide
    rw [e, deriveName_of_dir_stem U dir _ _ (by decide) (by decide) (by decide)]
    exact Title_my_file U
  · have e : str "my_file.txt" = str "my_file" ++ 46 :: str "txt" := by decide
    rw [e, deriveName_of_stem U _ _ (by decide) (by decide) (by decide)]
    exact Title_my_file U

/-- C8, at a concrete input: the path `res/img/archive.tar.gz`, whose name is
`Archive.Tar`. -/
theorem name_derivation_witness :
    (47 ∉ str "archive.tar" ∧ 47 ∉ str "gz" ∧ 46 ∉ str "gz") ∧
    str "res/img/archive.tar.gz" = str "res/img" ++ 47 :: (str "archive.tar" ++ 46 :: str "gz") ∧
    deriveName asciiTables (str "res/img" ++ 47 :: (str "archive.tar" ++ 46 :: str "gz")) =
      Title asciiTables (str "archive.tar") ∧
    Title asciiTables (str "archive.tar") = str "Archive.Tar" :=
  ⟨by decide, by decide,
    ((name_derivation asciiTables).2.2.2.1 (str "res/img") (str "archive.tar") (str "gz")
      (by decide) (by decide) (by decide)).1, by decide⟩

/-! ## Formatting -/

theorem Sprintf_literal (rest : GoString) (args : List Arg) : ∀ l : GoString, 37 ∉ l →
    Sprintf (l ++ rest) args = l ++ Sprintf rest args
  | [], _ => rfl
  | c :: l, h => by
    simp only [List.mem_cons, not_or] at h
    have hc : ¬ c = 37 := fun e => h.1 e.symm
    rw [List.cons_append, Sprintf.eq_def]
    simp only [if_neg hc, Sprintf_literal rest args l h.2, List.cons_append]

theorem Sprintf_verb (rest : GoString) (a : Arg) (args : List Arg) :
    Sprintf (37 :: 115 :: rest) (a :: args) = a.format ++ Sprintf rest args := by
  rw [Sprintf.eq_def]
  simp

theorem Sprintf_nil (args : List Arg) : Sprintf [] args = [] := by
  rw [Sprintf.eq_def]

theorem Sprintf_comment_line (c : GoString) :
    Sprintf (str "// %s") [.s c] = str "// " ++ c := by
  have e : str "// %s" = str "// " ++ 37 :: 115 :: [] := by decide
  rw [e, Sprintf_literal _ _ _ (by decide), Sprintf_verb, Sprintf_nil]
  simp [Arg.format]

theorem Sprintf_const_line (n c : GoString) :
    Sprintf (str "const %s = `%s` \n") [.s n, .s c] =
      str "const " ++ n ++ str " = `" ++ c ++ str "` \n" := by
  have e : str "const %s = `%s` \n" =
      str "const " ++ 37 :: 115 :: (str " = `" ++ 37 :: 115 :: (str "` \n" ++ [])) := by decide
  rw [e, Sprintf_literal _ _ _ (by decide), Sprintf_verb, Sprintf_literal _ _ _ (by decide),
    Sprintf_verb, Sprintf_literal _ _ _ (by decide), Sprintf_nil]
  simp [Arg.format]

theorem Sprintf_comment (n t f : GoString) :
    Sprintf (str "%s was sourced from %s file %s") [.s n, .s t, .s f] =
      n ++ str " was sourced from " ++ t ++ str " file " ++ f := by
  have e : str "%s was sourced from %s file %s" =
      37 :: 115 :: (str " was sourced from " ++ 37 :: 115 :: (str " file " ++ 37 :: 115 :: []))
      := by decide
  rw [e, Sprintf_verb, Sprintf_literal _ _ _ (by decide), Sprintf_verb,
    Sprintf_literal _ _ _ (by decide), Sprintf_verb, Sprintf_nil]
  simp [Arg.format]

theorem Sprintf_glob_error (g err : GoString) :
    Sprintf (str "include: error: with glob '%s': %s\n") [.s g, .s err] =
      str "include: error: with glob '" ++ g ++ str "': " ++ err ++ str "\n" := by
  have e : str "include: error: with glob '%s': %s\n" =
      str "include: error: with glob '" ++ 37 :: 115 :: (str "': " ++ 37 :: 115 ::
        (str "\n" ++ [])) := by decide
  rw [e, Sprintf_literal _ _ _ (by decide), Sprintf_verb, Sprintf_literal _ _ _ (by decide),
    Sprintf_verb, Sprintf_literal _ _ _ (by decide), Sprintf_nil]
  simp [Arg.format]

theorem Sprintf_no_match (g : GoString) :
    Sprintf (str "include: found no files matching '%s'\n") [.s g] =
      str "include: found no files matching '" ++ g ++ str "'\n" := by
  have e : str "include: found no files matching '%s'\n" =
      str "include: found no files matching '" ++ 37 :: 115 :: (str "'\n" ++ []) := by decide
  rw [e, Sprintf_literal _ _ _ (by decide), Sprintf_verb, Sprintf_literal _ _ _ (by decide),
    Sprintf_nil]
  simp [Arg.format]

theorem Sprintf_could_not_open (f : GoString) :
    Sprintf (str "include: error: could not open %s\n") [.s f] =
      str "include: error: could not open " ++ f ++ str "\n" := by
  have e : str "include: error: could not open %s\n" =
      str "include: error: could not open " ++ 37 :: 115 :: (str "\n" ++ []) := by decide
  rw [e, Sprintf_literal _ _ _ (by decide), Sprintf_verb, Sprintf_literal _ _ _ (by decide),
    Sprintf_nil]
  simp [Arg.format]

theorem Sprintf_fatal (args : List GoString) :
    Sprintf (str "include: error: found no files matching glob(s) %s\n") [.ss args] =
      str "include: error: found no files matching glob(s) " ++
        (str "[" ++ (args.intersperse (str " ")).flatten ++ str "]") ++ str "\n" := by
  have e : str "include: error: found no files matching glob(s) %s\n" =
      str "include: error: found no files matching glob(s) " ++ 37 :: 115 :: (str "\n" ++ [])
      := by decide
  rw [e, Sprintf_literal _ _ _ (by decide), Sprintf_verb, Sprintf_literal _ _ _ (by decide),
    Sprintf_nil]
  simp [Arg.format]

/-! ## The loops of `main` -/

theorem globLoop_error (W : World) (g err : GoString) (args : List GoString)
    (h : W.Glob g = .error err) :
    globLoop W (g :: args) =
      ((globLoop W args).1,
        (str "include: error: with glob '" ++ g ++ str "': " ++ err ++ str "\n") ::
          (globLoop W args).2) := by
  simp only [globLoop, h, Sprintf_glob_error]

theorem globLoop_ok_nil (W : World) (g : GoString) (args : List GoString)
    (h : W.Glob g = .ok []) :
    globLoop W (g :: args) =
      ((globLoop W args).1,
        (str "include: found no files matching '" ++ g ++ str "'\n") ::
          (globLoop W args).2) := by
  simp [globLoop, h, Sprintf_no_match]

theorem globLoop_ok_cons (W : World) (g a : GoString) (l args : List GoString)
    (h : W.Glob g = .ok (a :: l)) :
    globLoop W (g :: args) = ((a :: l) ++ (globLoop W args).1, (globLoop W args).2) := by
  simp [globLoop, h]

theorem globLoop_fst (W : World) : ∀ args : List GoString,
    (globLoop W args).1 = (args.map (globMatches W)).flatten
  | [] => rfl
  | g :: args => by
    have ih := globLoop_fst W args
    cases hg : W.Glob g with
    | error err =>
      rw [globLoop_error W g err args hg]
      simp [globMatches, hg, ih]
    | ok filenames =>
      cases filenames with
      | nil =>
        rw [globLoop_ok_nil W g args hg]
        simp [globMatches, hg, ih]
      | cons a l =>
        rw [globLoop_ok_cons W g a l args hg]
        simp [globMatches, hg, ih]

theorem globLoop_snd (W : World) : ∀ args : List GoString,
    (globLoop W args).2 =
      (args.filter (fun g => decide (globMatches W g = []))).map (globDiagnostic W)
  | [] => rfl
  | g :: args => by
    have ih := globLoop_snd W args
    cases hg : W.Glob g with
    | error err =>
      rw [globLoop_error W g err args hg]
      simp [List.filter_cons, globMatches, globDiagnostic, hg, ih]
    | ok filenames =>
      cases filenames with
      | nil =>
        rw [globLoop_ok_nil W g args hg]
        simp [List.filter_cons, globMatches, globDiagnostic, hg, ih]
      | cons a l =>
        rw [globLoop_ok_cons W g a l args hg]
        simp [List.filter_cons, globMatches, hg, ih]

theorem buildLoop_fst (W : World) (filetype : GoString) : ∀ files : List GoString,
    (buildLoop W filetype files).1 = readEntries W filetype files
  | [] => rfl
  | f :: files => by
    have ih := buildLoop_fst W filetype files
    simp only [buildLoop, readEntries, List.filterMap_cons]
    cases hf : W.ReadFile f with
    | none => simpa [readEntries] using ih
    | some b => simpa [readEntries] using ih

theorem buildLoop_snd (W : World) (filetype : GoString) : ∀ files : List GoString,
    (buildLoop W filetype files).2 =
      (files.filter (fun f => (W.ReadFile f).isNone)).map
        (fun f => str "include: error: could not open " ++ f ++ str "\n")
  | [] => rfl
  | f :: files => by
    have ih := buildLoop_snd W filetype files
    simp only [buildLoop, List.filter_cons]
    cases hf : W.ReadFile f with
    | none => simp [ih, Sprintf_could_not_open]
    | some b => simp [ih]

theorem readEntries_of_all_fail (W : World) (filetype : GoString) :
    ∀ files : List GoString, (∀ f ∈ files, W.ReadFile f = none) →
      readEntries W filetype files = []
  | [], _ => rfl
  | f :: files, h => by
    have ih := readEntries_of_all_fail W filetype files (fun x hx => h x (by simp [hx]))
    simp only [readEntries, List.filterMap_cons, h f (by simp)] at ih ⊢
    simpa using ih

theorem buildFile_Comment (U : Unicode) (filetype f : GoString) (b : List Nat) :
    (buildFile U filetype f b).Comment =
      deriveName U f ++ str " was sourced from " ++ filetype ++ str " file " ++ f := by
  simp only [buildFile, Sprintf_comment]

theorem buildFile_Comment_ne_nil (U : Unicode) (filetype f : GoString) (b : List Nat) :
    (buildFile U filetype f b).Comment ≠ [] := by
  rw [buildFile_Comment]
  intro h
  have := congrArg List.length h
  simp [str] at this

theorem temp_file_eq_block (e : file) (h : e.Comment ≠ []) : temp.file e = block e := by
  simp only [temp.file, block, if_pos h, Sprintf_comment_line, Sprintf_const_line]
  simp [List.append_assoc, str]

theorem readEntries_Comment_ne_nil (W : World) (filetype : GoString) (files : List GoString) :
    ∀ e ∈ readEntries W filetype files, e.Comment ≠ [] := by
  intro e he
  simp only [readEntries, List.mem_filterMap] at he
  obtain ⟨f, _, hf⟩ := he
  cases hr : W.ReadFile f with
  | none => simp [hr] at hf
  | some b =>
    simp only [hr, Option.map_some', Option.some.injEq] at hf
    subst hf
    exact buildFile_Comment_ne_nil _ _ _ _

theorem generate_eq (W : World) (filetype : GoString) (files : List GoString) :
    generate W filetype files =
      header W.Now (pkgName W) ++ ((readEntries W filetype files).map block).flatten := by
  simp only [generate, temp.Execute, header, buildLoop_fst]
  congr 2
  apply List.map_congr_left
  intro e he
  exact temp_file_eq_block e (readEntries_Comment_ne_nil W filetype files e he)

theorem main_of_files (W : World) (outfile filetype : GoString) (args : List GoString)
    (h : resolveFiles W args ≠ []) :
    main W outfile filetype args =
      { stderr := (globLoop W args).2 ++ (buildLoop W filetype (resolveFiles W args)).2,
        stdout := (output outfile (generate W filetype (resolveFiles W args))).1,
        written := (output outfile (generate W filetype (resolveFiles W args))).2 } := by
  have hl : ¬ (resolveFiles W args).length < 1 := by
    have := List.length_pos.mpr h
    omega
  simp only [main, if_neg hl]

theorem main_of_no_files (W : World) (outfile filetype : GoString) (args : List GoString)
    (h : resolveFiles W args = []) :
    main W outfile filetype args =
      { stderr := (globLoop W args).2 ++
          [str "include: error: found no files matching glob(s) " ++
            (str "[" ++ (args.intersperse (str " ")).flatten ++ str "]") ++ str "\n"],
        stdout := [],
        written := [] } := by
  simp only [main, h, List.length_nil, Nat.lt_one_iff, if_true, Sprintf_fatal]

theorem resolveFiles_cons (W : World) (g : GoString) (args : List GoString) :
    resolveFiles W (g :: args) = ((g :: args).map (globMatches W)).flatten := by
  simp only [resolveFiles, List.length_cons, Nat.succ_ne_zero, if_false, globLoop_fst]

theorem resolveFiles_nil (W : World) : resolveFiles W [] = [StdinName] := rfl

/-! ## The claims about the run -/

/-- C3. Rendered output: the generated code is the header
`// Generated code. DO NOT EDIT.`, `// Generated on T`, an empty line,
`package P`, an empty line, followed by one block for every resolved file
whose read succeeds, in the order of the resolved files, and by nothing for a
file whose read fails; a block is the line `// Comment`, the line with
`const Name =` and the content between back-ticks, and behind it a blank and
two line breaks.  When files were resolved, this text is what `main` prints or
writes; when every read fails it is the header alone. -/
theorem rendered_output (W : World) (outfile filetype : GoString) (args : List GoString) :
    (∀ T P : GoString, header T P =
      str "// Generated code. DO NOT EDIT.\n// Generated on " ++ T ++ str "\n\npackage " ++ P ++
        str "\n\n") ∧
    (∀ e : file, block e =
      str "// " ++ e.Comment ++ str "\nconst " ++ e.Name ++ str " = `" ++ e.Content ++
        str "` \n\n") ∧
    pkgName W = (W.LookupEnv (str "GOPACKAGE")).getD (str "main") ∧
    (∀ files : List GoString,
      readEntries W filetype files =
        files.filterMap (fun f => (W.ReadFile f).map (buildFile W.unicode filetype f)) ∧
      generate W filetype files =
        header W.Now (pkgName W) ++ ((readEntries W filetype files).map block).flatten) ∧
    (resolveFiles W args ≠ [] →
      (main W outfile filetype args).stdout =
        (output outfile (generate W filetype (resolveFiles W args))).1 ∧
      (main W outfile filetype args).written =
        (output outfile (generate W filetype (resolveFiles W args))).2) ∧
    (resolveFiles W args ≠ [] → (∀ f ∈ resolveFiles W args, W.ReadFile f = none) →
      generate W filetype (resolveFiles W args) = header W.Now (pkgName W) ∧
      (main W (str "-") filetype args).stdout = header W.Now (pkgName W) ∧
      (outfile ≠ str "-" → (main W outfile filetype args).written =
        [(outputName outfile, header W.Now (pkgName W))])) := by
  refine ⟨fun T P => rfl, fun e => ?_, ?_, fun files => ⟨rfl, generate_eq W filetype files⟩,
    fun h => ?_, fun h hf => ?_⟩
  · simp [block, List.append_assoc, str]
  · unfold pkgName
    cases W.LookupEnv (str "GOPACKAGE") <;> rfl
  · rw [main_of_files W outfile filetype args h]
    exact ⟨rfl, rfl⟩
  · have hg : generate W filetype (resolveFiles W args) = header W.Now (pkgName W) := by
      rw [generate_eq, readEntries_of_all_fail W filetype _ hf]
      simp
    refine ⟨hg, ?_, fun ho => ?_⟩
    · rw [main_of_files W (str "-") filetype args h, hg]
      simp [output]
    · rw [main_of_files W outfile filetype args h, hg]
      simp [output, ho]

/-- C3, at a concrete input: the pattern `b*` resolves to `b.txt`, which cannot
be read, and the output is the header alone. -/
theorem rendered_output_witness :
    resolveFiles sampleWorld [str "b*"] ≠ [] ∧
    (∀ f ∈ resolveFiles sampleWorld [str "b*"], sampleWorld.ReadFile f = none) ∧
    (main sampleWorld (str "-") (str "text") [str "b*"]).stdout =
      str "// Generated code. DO NOT EDIT.\n// Generated on 2019-03-01T12:00:00Z\n\npackage main\n\n"
    := by
  refine ⟨by decide, by decide, ?_⟩
  rw [((rendered_output sampleWorld (str "-") (str "text") [str "b*"]).2.2.2.2.2
    (by decide) (by decide)).2.1]
  decide

/-- C4. No resolved file is fatal: when arguments are given and every pattern
is malformed or matches nothing, `main` prints one diagnostic for every
pattern and then the diagnostic that lists the patterns, prints nothing on
standard output and writes no file, whatever `-o` and `-t` are. -/
theorem no_files_fatal (W : World) (outfile filetype : GoString) (args : List GoString)
    (hne : args ≠ [])
    (hall : ∀ g ∈ args, (∃ err, W.Glob g = .error err) ∨ W.Glob g = .ok []) :
    (main W outfile filetype args).stdout = [] ∧
    (main W outfile filetype args).written = [] ∧
    (main W outfile filetype args).stderr =
      args.map (globDiagnostic W) ++
        [str "include: error: found no files matching glob(s) " ++
          (str "[" ++ (args.intersperse (str " ")).flatten ++ str "]") ++ str "\n"] := by
  have hm : ∀ g ∈ args, globMatches W g = [] := by
    intro g hg
    rcases hall g hg with ⟨err, h⟩ | h <;> simp [globMatches, h]
  have hfiles : resolveFiles W args = [] := by
    cases args with
    | nil => exact absurd rfl hne
    | cons g rest =>
      rw [resolveFiles_cons]
      simp only [List.flatten_eq_nil_iff, List.mem_map]
      rintro l ⟨x, hx, rfl⟩
      exact hm x hx
  have hfilter : args.filter (fun g => decide (globMatches W g = [])) = args := by
    rw [List.filter_eq_self]
    intro g hg
    simp [hm g hg]
  rw [main_of_no_files W outfile filetype args hfiles, globLoop_snd, hfilter]
  exact ⟨rfl, rfl, rfl⟩

/-- C4, at a concrete input: the malformed pattern `[` and the pattern `zzz`
without matches. -/
theorem no_files_fatal_witness :
    [str "[", str "zzz"] ≠ [] ∧
    (main sampleWorld (str "res") (str "bin") [str "[", str "zzz"]).stdout = [] ∧
    (main sampleWorld (str "res") (str "bin") [str "[", str "zzz"]).written = [] ∧
    (main sampleWorld (str "res") (str "bin") [str "[", str "zzz"]).stderr =
      [str "include: error: with glob '[': syntax error in pattern\n",
        str "include: found no files matching 'zzz'\n",
        str "include: error: found no files matching glob(s) [[ zzz]\n"] := by
  have h := no_files_fatal sampleWorld (str "res") (str "bin") [str "[", str "zzz"]
    (by decide)
    (by
      intro g hg
      simp only [List.mem_cons, List.mem_singleton, List.not_mem_nil, or_false] at hg
      rcases hg with rfl | rfl
      · exact Or.inl ⟨str "syntax error in pattern", rfl⟩
      · exact Or.inr rfl)
  refine ⟨by decide, h.1, h.2.1, ?_⟩
  rw [h.2.2]
  decide

theorem count_of_nodup (p : GoString) : ∀ l : List GoString, l.Nodup →
    l.count p = if p ∈ l then 1 else 0
  | [], _ => rfl
  | a :: l, h => by
    rw [List.nodup_cons] at h
    have ih := count_of_nodup p l h.2
    rw [List.count_cons, ih]
    by_cases hpa : a = p
    · subst hpa
      simp [h.1]
    · have hpa2 : ¬ p = a := fun e => hpa e.symm
      simp [hpa, hpa2]

theorem count_flatten_globMatches (W : World) (p : GoString) : ∀ args : List GoString,
    (∀ g ∈ args, (globMatches W g).Nodup) →
    ((args.map (globMatches W)).flatten).count p =
      args.countP (fun g => decide (p ∈ globMatches W g))
  | [], _ => rfl
  | g :: args, h => by
    have ih := count_flatten_globMatches W p args (fun x hx => h x (by simp [hx]))
    have hg := count_of_nodup p _ (h g (by simp))
    simp only [List.map_cons, List.flatten_cons, List.count_append, List.countP_cons, ih]
    rw [hg]
    by_cases hp : p ∈ globMatches W g
    · simp [hp]; omega
    · simp [hp]

/-- C5. Resolver multiplicity: when arguments are given, the resolved file list
is the concatenation, in argument order, of the match lists of the patterns (a
malformed pattern and a pattern without matches contribute nothing).  Hence,
when no pattern lists a path twice, a path occurs in the list as often as there
are arguments that match it: `k` times when `k` of them do, and exactly once
when it is matched and no path is matched by two arguments. -/
theorem resolver_multiplicity (W : World) (args : List GoString) (hne : args ≠ []) :
    resolveFiles W args = (args.map (globMatches W)).flatten ∧
    (∀ g : GoString, (∀ err, W.Glob g = .error err → globMatches W g = []) ∧
      (∀ l, W.Glob g = .ok l → globMatches W g = l)) ∧
    ((∀ g ∈ args, (globMatches W g).Nodup) →
      (∀ p : GoString, (resolveFiles W args).count p =
        args.countP (fun g => decide (p ∈ globMatches W g))) ∧
      ((∀ p : GoString, args.countP (fun g => decide (p ∈ globMatches W g)) ≤ 1) →
        ∀ p : GoString, (∃ g ∈ args, p ∈ globMatches W g) →
          (resolveFiles W args).count p = 1)) := by
  have hfiles : resolveFiles W args = (args.map (globMatches W)).flatten := by
    cases args with
    | nil => exact absurd rfl hne
    | cons g rest => exact resolveFiles_cons W g rest
  refine ⟨hfiles, fun g => ⟨fun err h => by simp [globMatches, h],
    fun l h => by simp [globMatches, h]⟩, fun hnd => ?_⟩
  have hcount : ∀ p : GoString, (resolveFiles W args).count p =
      args.countP (fun g => decide (p ∈ globMatches W g)) := by
    intro p
    rw [hfiles]
    exact count_flatten_globMatches W p args hnd
  refine ⟨hcount, fun hle p hp => ?_⟩
  have hpos : 0 < args.countP (fun g => decide (p ∈ globMatches W g)) := by
    rw [List.countP_pos_iff]
    obtain ⟨g, hg, hpg⟩ := hp
    exact ⟨g, hg, by simpa using hpg⟩
  rw [hcount p]
  have := hle p
  omega

/-- C5, at a concrete input: `*.txt` and `a*` both match `a.txt`, which is
resolved twice, and `[` contributes nothing. -/
theorem resolver_multiplicity_witness :
    [str "*.txt", str "[", str "a*"] ≠ [] ∧
    (∀ g ∈ [str "*.txt", str "[", str "a*"], (globMatches sampleWorld g).Nodup) ∧
    resolveFiles sampleWorld [str "*.txt", str "[", str "a*"] =
      [str "a.txt", str "b.txt", str "a.txt"] ∧
    (resolveFiles sampleWorld [str "*.txt", str "[", str "a*"]).count (str "a.txt") = 2 := by
  have h := resolver_multiplicity sampleWorld [str "*.txt", str "[", str "a*"] (by decide)
  refine ⟨by decide, by decide, ?_, ?_⟩
  · rw [h.1]
    decide
  · rw [(h.2.2 (by decide)).1]
    decide

/-- C6, as stated, fails: `*.txt` and `a*` both match `a.txt`, and the file
list holds `a.txt` twice. -/
theorem resolved_files_not_deduped :
    resolveFiles sampleWorld [str "*.txt", str "a*"] = [str "a.txt", str "b.txt", str "a.txt"] ∧
    ¬ (resolveFiles sampleWorld [str "*.txt", str "a*"]).Nodup := by
  decide

/-- C6, amended. The file list is not deduplicated: no path occurs in it more
than once provided that no pattern lists a path twice and no path is matched
by two of the arguments. -/
theorem resolved_files_nodup (W : World) (args : List GoString)
    (hnd : ∀ g ∈ args, (globMatches W g).Nodup)
    (hdis : args.Pairwise (fun g h => List.Disjoint (globMatches W g) (globMatches W h))) :
    (resolveFiles W args).Nodup := by
  cases args with
  | nil => simp [resolveFiles_nil]
  | cons g rest =>
    rw [resolveFiles_cons, List.nodup_flatten]
    refine ⟨?_, ?_⟩
    · intro l hl
      simp only [List.mem_map] at hl
      obtain ⟨x, hx, rfl⟩ := hl
      exact hnd x hx
    · rw [List.pairwise_map]
      exact hdis

/-- C6 amended, at a concrete input: `a*` and `b*` match different files. -/
theorem resolved_files_nodup_witness :
    (∀ g ∈ [str "a*", str "b*"], (globMatches sampleWorld g).Nodup) ∧
    (resolveFiles sampleWorld [str "a*", str "b*"]).Nodup := by
  have e1 : globMatches sampleWorld (str "a*") = [str "a.txt"] := by decide
  have e2 : globMatches sampleWorld (str "b*") = [str "b.txt"] := by decide
  have hne : str "a.txt" ≠ str "b.txt" := by decide
  refine ⟨by decide, resolved_files_nodup sampleWorld [str "a*", str "b*"] (by decide) ?_⟩
  rw [List.pairwise_pair, e1, e2]
  simpa using hne.symm

/-- C7. Standard-input fallback: without arguments the resolved file list is
the one-element list with the name of `os.Stdin`, so the fatal branch is not
taken and the generated code for that one input is printed or written; with
arguments the list is what the loop over the patterns collected, nothing is
added to it, and each of its members is a match of one of the patterns. -/
theorem stdin_fallback (W : World) (outfile filetype : GoString) :
    StdinName = str "/dev/stdin" ∧
    resolveFiles W [] = [StdinName] ∧
    main W outfile filetype [] =
      { stderr := (buildLoop W filetype [StdinName]).2,
        stdout := (output outfile (generate W filetype [StdinName])).1,
        written := (output outfile (generate W filetype [StdinName])).2 } ∧
    ((main W outfile filetype []).stdout ≠ [] ∨ (main W outfile filetype []).written ≠ []) ∧
    (∀ (g : GoString) (args : List GoString),
      resolveFiles W (g :: args) = (globLoop W (g :: args)).1 ∧
      ∀ f ∈ resolveFiles W (g :: args), ∃ glob ∈ g :: args, f ∈ globMatches W glob) := by
  have hm : main W outfile filetype [] =
      { stderr := (buildLoop W filetype [StdinName]).2,
        stdout := (output outfile (generate W filetype [StdinName])).1,
        written := (output outfile (generate W filetype [StdinName])).2 } := by
    rw [main_of_files W outfile filetype [] (by simp [resolveFiles_nil])]
    simp [resolveFiles_nil, globLoop]
  refine ⟨rfl, rfl, hm, ?_, fun g args => ⟨?_, ?_⟩⟩
  · rw [hm]
    by_cases ho : outfile = str "-"
    · left
      have hg : generate W filetype [StdinName] ≠ [] := by
        rw [generate_eq]
        intro h
        have := congrArg List.length h
        simp [header, str] at this
      simpa [output, ho] using hg
    · right
      simp [output, ho]
  · simp [resolveFiles]
  · intro f hf
    rw [resolveFiles_cons] at hf
    simp only [List.mem_flatten, List.mem_map] at hf
    obtain ⟨l, ⟨glob, hglob, rfl⟩, hfl⟩ := hf
    exact ⟨glob, hglob, hfl⟩

theorem outputName_suffix (o : GoString) : str ".go" <:+ outputName o := by
  unfold outputName
  by_cases h : HasSuffix o (str ".go") = true
  · simp only [h, not_true_eq_false, if_false]
    exact List.isSuffixOf_iff_suffix.mp h
  · simp only [h, not_false_eq_true, if_true]
    exact List.suffix_append _ _

theorem outputName_of_suffix (o : GoString) (hs : str ".go" <:+ o) : outputName o = o := by
  have : HasSuffix o (str ".go") = true := List.isSuffixOf_iff_suffix.mpr hs
  simp [outputName, this]

/-- C9. Output target: with `-o -` the generated code is printed on standard
output and no file is written; with any other `-o` value nothing is printed
and exactly one file is written, named by the value itself when it ends in
`.go` and by the value followed by `.go` when it does not.  The written name
always ends in `.go`, naming twice is naming once, `res` gives `res.go` and
`res.go` gives `res.go`. -/
theorem output_target (W : World) (outfile filetype : GoString) (args : List GoString)
    (h : resolveFiles W args ≠ []) :
    (outfile = str "-" →
      (main W outfile filetype args).stdout = generate W filetype (resolveFiles W args) ∧
      (main W outfile filetype args).written = []) ∧
    (outfile ≠ str "-" →
      (main W outfile filetype args).stdout = [] ∧
      (main W outfile filetype args).written =
        [(outputName outfile, generate W filetype (resolveFiles W args))]) ∧
    (str ".go" <:+ outfile → outputName outfile = outfile) ∧
    (¬ str ".go" <:+ outfile → outputName outfile = outfile ++ str ".go") ∧
    str ".go" <:+ outputName outfile ∧
    outputName (outputName outfile) = outputName outfile ∧
    outputName (str "res") = str "res.go" ∧
    outputName (str "res.go") = str "res.go" := by
  have hyes : str ".go" <:+ outfile → outputName outfile = outfile :=
    outputName_of_suffix outfile
  have hno : ¬ str ".go" <:+ outfile → outputName outfile = outfile ++ str ".go" := by
    intro hs
    have : ¬ HasSuffix outfile (str ".go") = true :=
      fun hh => hs (List.isSuffixOf_iff_suffix.mp hh)
    simp [outputName, this]
  refine ⟨fun ho => ?_, fun ho => ?_, hyes, hno, outputName_suffix outfile, ?_,
    by decide, by decide⟩
  · rw [main_of_files W outfile filetype args h]
    simp [output, ho]
  · rw [main_of_files W outfile filetype args h]
    simp [output, ho]
  · exact outputName_of_suffix _ (outputName_suffix outfile)

/-- C9, at a concrete input: `-o res` with the pattern `a*`. -/
theorem output_target_witness :
    resolveFiles sampleWorld [str "a*"] ≠ [] ∧
    (main sampleWorld (str "res") (str "text") [str "a*"]).stdout = [] ∧
    (main sampleWorld (str "res") (str "text") [str "a*"]).written =
      [(str "res.go", generate sampleWorld (str "text") [str "a.txt"])] := by
  have h := (output_target sampleWorld (str "res") (str "text") [str "a*"] (by decide)).2.1
    (by decide)
  refine ⟨by decide, h.1, ?_⟩
  rw [h.2]
  decide

/-- C10. Unvalidated encoding mode: for a `-t` value that is neither `text` nor
`bin`, a readable file still gets its entry, with its `Name`, the empty
`Content` whatever the bytes of the file are, and a `Comment` that carries the
value as it was given; nothing is printed for it, and the diagnostics of the
whole run are those of a run with `-t text`. -/
theorem unvalidated_mode (W : World) (filetype : GoString) (ht : filetype ≠ str "text")
    (hb : filetype ≠ str "bin") :
    (∀ (f : GoString) (b : List Nat), W.ReadFile f = some b →
      buildLoop W filetype [f] =
        ([{ Name := deriveName W.unicode f,
            Content := [],
            Comment := deriveName W.unicode f ++ str " was sourced from " ++ filetype ++
              str " file " ++ f }], [])) ∧
    (∀ files : List GoString, (∀ f ∈ files, W.ReadFile f ≠ none) →
      (buildLoop W filetype files).2 = [] ∧
      (buildLoop W filetype files).1 = files.map (fun f =>
        { Name := deriveName W.unicode f,
          Content := [],
          Comment := deriveName W.unicode f ++ str " was sourced from " ++ filetype ++
            str " file " ++ f })) ∧
    (∀ (outfile : GoString) (args : List GoString),
      (main W outfile filetype args).stderr = (main W outfile (str "text") args).stderr ∧
      (resolveFiles W args ≠ [] →
        (main W outfile filetype args).stdout =
          (output outfile (generate W filetype (resolveFiles W args))).1 ∧
        (main W outfile filetype args).written =
          (output outfile (generate W filetype (resolveFiles W args))).2)) := by
  have hfile : ∀ (f : GoString) (b : List Nat), buildFile W.unicode filetype f b =
      { Name := deriveName W.unicode f,
        Content := [],
        Comment := deriveName W.unicode f ++ str " was sourced from " ++ filetype ++
          str " file " ++ f } := by
    intro f b
    simp only [buildFile, encodeContent, if_neg hb, if_neg ht, Sprintf_comment]
  refine ⟨fun f b hf => ?_, fun files hfiles => ⟨?_, ?_⟩, fun outfile args => ⟨?_, fun h => ?_⟩⟩
  · simp only [buildLoop, hf, hfile]
  · rw [buildLoop_snd]
    simp only [List.map_eq_nil_iff, List.filter_eq_nil_iff]
    intro f hf
    cases hr : W.ReadFile f with
    | none => exact absurd hr (hfiles f hf)
    | some b => simp
  · rw [buildLoop_fst]
    induction files with
    | nil => rfl
    | cons f files ih =>
      have ih := ih (fun x hx => hfiles x (by simp [hx]))
      cases hr : W.ReadFile f with
      | none => exact absurd hr (hfiles f (by simp))
      | some b =>
        simp only [readEntries, List.filterMap_cons, hr, Option.map_some', List.map_cons,
          hfile] at ih ⊢
        rw [ih]
  · by_cases h : resolveFiles W args = []
    · rw [main_of_no_files W outfile filetype args h,
        main_of_no_files W outfile (str "text") args h]
    · rw [main_of_files W outfile filetype args h,
        main_of_files W outfile (str "text") args h]
      simp only [buildLoop_snd]
  · rw [main_of_files W outfile filetype args h]
    exact ⟨rfl, rfl⟩

/-- C10, at a concrete input: `-t binary` with the pattern `a*`. -/
theorem unvalidated_mode_witness :
    str "binary" ≠ str "text" ∧ str "binary" ≠ str "bin" ∧
    sampleWorld.ReadFile (str "a.txt") = some (str "hello`world") ∧
    buildLoop sampleWorld (str "binary") [str "a.txt"] =
      ([{ Name := str "A", Content := [],
          Comment := str "A was sourced from binary file a.txt" }], []) := by
  have h := (unvalidated_mode sampleWorld (str "binary") (by decide) (by decide)).1
    (str "a.txt") (str "hello`world") (by decide)
  refine ⟨by decide, by decide, by decide, ?_⟩
  rw [h]
  have e : deriveName sampleWorld.unicode (str "a.txt") = str "A" := by decide
  rw [e]
  have e2 : str "A" ++ str " was sourced from " ++ str "binary" ++ str " file " ++ str "a.txt"
      = str "A was sourced from binary file a.txt" := by decide
  rw [e2]

end GoInclude
